import Mathlib

/-!
Verification of the AI-Video-Generator job pipeline against its source.

Each section embeds one module of the repository as executable Lean
definitions and proves the specification claims about it:

* `src/hf_inference.py`  — Remote Inference Adapter (cold-start retry loop)
* `src/cloud_worker.py`  — Worker Loop job state machine
* `src/firebase_utils.py` — Job Store submit/status with REST fallback
* `src/storage.py`       — local history store (bounded ring)
* `src/csv_storage.py`   — CSV metadata store and JSON round-trip
* `src/app.py`           — regeneration counter and generation pipeline
-/

namespace AIVideo

/-! ## Remote Inference Adapter — src/hf_inference.py -/

/-- One HTTP response from the inference endpoint, as the adapter reads it:
the status code, the optional `estimated_time` hint found in a 503 body,
and the raw body bytes (the video payload on a 200). -/
structure HFResponse where
  status : Nat
  estimated_time : Option Nat
  body : List Nat
deriving DecidableEq

/-- Wait computation of one retry iteration (`hf_inference.py` lines
116–123): default 10 s, replaced by `min(estimated_time, 30)` when the
503 body carries a hint. -/
def waitTime (r : HFResponse) : Nat :=
  match r.estimated_time with
  | some e => min e 30
  | none => 10

/-- The `while response.status_code == 503 and retry_count < max_retries`
loop of `HuggingFaceVideoGenerator.generate` (lines 110–134), with
`max_retries = 30`.  `responses k` is the response to the (k+1)-th HTTP
request; `sent` counts requests already issued; `retry_count` mirrors the
Python variable.  Returns the final response together with the total
number of requests issued. -/
def hfRetryLoop (responses : Nat → HFResponse) (resp : HFResponse)
    (sent retry_count : Nat) : HFResponse × Nat :=
  if h : resp.status = 503 ∧ retry_count < 30 then
    hfRetryLoop responses (responses sent) (sent + 1) (retry_count + 1)
  else
    (resp, sent)
termination_by 30 - retry_count
decreasing_by omega

/-- Request parameters of the JSON payload built by `generate`
(lines 85–96): `num_frames` clamped to 48 and `num_inference_steps`
clamped to 50 at payload construction; `height`/`width` passed through;
`negative_prompt` present only when non-empty. -/
structure HFPayloadParams where
  num_frames : Nat
  num_inference_steps : Nat
  height : Nat
  width : Nat
  negative_prompt : Option String
deriving DecidableEq

/-- Payload construction in `generate` (lines 85–96). -/
def buildPayload (num_frames num_inference_steps height width : Nat)
    (negative_prompt : String) : HFPayloadParams :=
  { num_frames := min num_frames 48
    num_inference_steps := min num_inference_steps 50
    height := height
    width := width
    negative_prompt :=
      if negative_prompt = "" then none else some negative_prompt }

/-- Embedding of `HuggingFaceVideoGenerator.generate` (lines 98–170): issue the first
request, run the 503 retry loop, and either fail (`none`, any final
non-200 status) or succeed with the response body (the bytes the Python
code writes to the output file whose path it returns).  The result is
paired with the total number of HTTP requests issued.  `payload` is the
clamped request payload, sent unchanged on every attempt. -/
def hfGenerate (payload : HFPayloadParams) (responses : Nat → HFResponse) :
    Option (List Nat) × Nat :=
  let res := hfRetryLoop responses (responses 0) 1 0
  if res.1.status ≠ 200 then (none, res.2) else (some res.1.body, res.2)

/-- The settings dictionary keys read by `generate_video_hf`
(lines 241–249), each `none` when absent so that the Python
`settings.get(key, default)` defaults apply. -/
structure GenSettings where
  num_frames : Option Nat := none
  num_steps : Option Nat := none
  height : Option Nat := none
  width : Option Nat := none
deriving DecidableEq

/-- Fixed negative prompt of `generate_video_hf` (line 239). -/
def hfNegativePrompt : String :=
  "blurry, low quality, distorted, pixelated, ugly, bad anatomy, deformed, noisy, grainy, watermark, text"

/-- Parameter extraction of `generate_video_hf` (lines 241–249):
defaults 24/25/256/256 and the extra `min(…, 512)` clamp on height and
width, feeding `generate`'s payload construction. -/
def hfRequestParams (s : GenSettings) : HFPayloadParams :=
  buildPayload (s.num_frames.getD 24) (s.num_steps.getD 25)
    (min (s.height.getD 256) 512) (min (s.width.getD 256) 512)
    hfNegativePrompt

/-- Embedding of `generate_video_hf` (lines 207–249) as far as the remote call is
concerned: build the clamped payload from the settings and run the
adapter against the endpoint behaviour `responses`. -/
def generate_video_hf (s : GenSettings) (responses : Nat → HFResponse) :
    Option (List Nat) × Nat :=
  hfGenerate (hfRequestParams s) responses

/-- A cold-start response: 503, no hint, empty body. -/
def loadingResp : HFResponse := { status := 503, estimated_time := none, body := [] }

/-- A success response carrying the video payload. -/
def okResp (payload : List Nat) : HFResponse :=
  { status := 200, estimated_time := none, body := payload }

/-- Endpoint that answers 503 on the first five requests and succeeds on
the sixth. -/
def fiveLoadingThenOk (payload : List Nat) : Nat → HFResponse :=
  fun k => if k < 5 then loadingResp else okResp payload

/-- Endpoint that answers 503 on every request. -/
def alwaysLoading : Nat → HFResponse := fun _ => loadingResp

/-- The requests counter of the retry loop never drops below the number
of requests already sent when the loop is entered. -/
theorem hfRetryLoop_sent_le (fuel : Nat) :
    ∀ (responses : Nat → HFResponse) (resp : HFResponse) (sent rc : Nat),
      30 - rc ≤ fuel → sent ≤ (hfRetryLoop responses resp sent rc).2 := by
  induction fuel with
  | zero =>
    intro responses resp sent rc hle
    rw [hfRetryLoop]
    split
    · omega
    · exact Nat.le_refl _
  | succ n ih =>
    intro responses resp sent rc hle
    rw [hfRetryLoop]
    split
    · rename_i h
      exact Nat.le_trans (Nat.le_succ sent)
        (ih responses (responses sent) (sent + 1) (rc + 1) (by omega))
    · exact Nat.le_refl _

/-! ## Interactive session — src/app.py -/

/-- The session-state fields of `init_session_state` (app.py lines
190–213) that the generation pipeline and the regeneration controls
read or write. -/
structure SessionState where
  is_generating : Bool
  generated_video : Option String
  prompt_text : String
  regenerate_count : Nat
  max_regenerate : Nat
  last_prompt : Option String
deriving DecidableEq

/-- Defaults installed by `init_session_state` (lines 192–199). -/
def initSessionState : SessionState :=
  { is_generating := false
    generated_video := none
    prompt_text := ""
    regenerate_count := 0
    max_regenerate := 2
    last_prompt := none }

/-- Result of `translator.translate_to_english` (app.py lines 905–913). -/
structure TransResult where
  detected_language : String
  was_translated : Bool
  translated : String
deriving DecidableEq

/-- Result of `llama_gen.generate_video_prompt` as consumed in app.py
lines 942–949: Python truthiness applies, so `some ""` and `some 0`
leave the corresponding value unchanged. -/
structure LlamaConfig where
  prompt : Option String
  fps : Option Nat
  duration_seconds : Option Nat
deriving DecidableEq

/-- Result of the legacy `refiner.refine_to_json` as consumed in app.py
lines 973–975 (`.get` with defaults). -/
structure RefineResult where
  prompt : Option String
  num_inference_steps : Option Nat
deriving DecidableEq

/-- The settings-dictionary entries the pipeline reads or rewrites. -/
structure AppSettings where
  enable_refinement : Bool
  fps : Nat
  num_frames : Nat
  num_steps : Nat
deriving DecidableEq

/-- Outcome of every external call one run of the generation block can
make: `Except.error` means that call raised.  `legacyRefine`'s `ok none`
models `refine_to_json` returning a non-dict value (line 973's
`isinstance` check).  `genVideo` is the return value of
`generate_video` (app.py lines 670–814), which catches its own
exceptions internally and returns `None` on failure. -/
structure PipelineOutcomes where
  translation : Except Unit TransResult
  llama : Except Unit LlamaConfig
  legacyRefine : Except Unit (Option RefineResult)
  searchSave : Except Unit Unit
  genVideo : Option String

/-- Step 1 of the block (lines 899–920): translation with its failure
caught, leaving the prompt unchanged. -/
def translateStep (prompt0 : String) (o : PipelineOutcomes) : String :=
  match o.translation with
  | .ok r => if r.was_translated then r.translated else prompt0
  | .error _ => prompt0

/-- Step 2 of the block (lines 922–975): LLAMA analysis gated by
`enable_refinement`; on its failure the legacy refiner is called inside
the `except` handler with no surrounding try, so `none` here means an
exception escapes the whole block. -/
def refineStep (prompt1 : String) (settings : AppSettings)
    (o : PipelineOutcomes) : Option (String × AppSettings) :=
  if settings.enable_refinement then
    match o.llama with
    | .ok cfg =>
        let p2 := match cfg.prompt with
          | some p => if p = "" then prompt1 else p
          | none => prompt1
        let fps2 := match cfg.fps with
          | some f => if f = 0 then settings.fps else f
          | none => settings.fps
        let s2 := { settings with fps := fps2 }
        let s3 := match cfg.duration_seconds with
          | some d =>
              if d = 0 then s2 else { s2 with num_frames := min (d * s2.fps) 90 }
          | none => s2
        some (p2, s3)
    | .error _ =>
        match o.legacyRefine with
        | .ok (some rd) =>
            some (rd.prompt.getD prompt1,
              { settings with
                num_steps := rd.num_inference_steps.getD settings.num_steps })
        | .ok none => some (prompt1, settings)
        | .error _ => none
  else some (prompt1, settings)

/-- The generation block of `render_prompt_section` (app.py lines
887–1017).  `Except.error s` is the session state left behind when an
exception escapes the block uncaught — which happens exactly when the
LLAMA analysis raises and the legacy-refiner fallback call inside its
`except` handler (lines 964–975, itself unguarded) raises too. -/
def runGeneration (st0 : SessionState) (prompt0 : String)
    (settings : AppSettings) (o : PipelineOutcomes) :
    Except SessionState SessionState :=
  -- lines 888–891: flag set, prompt saved for regeneration
  let st := { st0 with is_generating := true, last_prompt := some prompt0 }
  match refineStep (translateStep prompt0 o) settings o with
  | none => .error st
  | some _ =>
    -- Step 3 (lines 977–989): search-history save, failure caught,
    -- no session-state effect either way
    -- Steps 4–6 (lines 991–1017)
    match o.genVideo with
    | some path =>
        .ok { st with generated_video := some path, is_generating := false }
    | none => .ok { st with is_generating := false }

/-- The session state observable at the end of a run, whether the block
completed or aborted with an uncaught exception. -/
def finalState : Except SessionState SessionState → SessionState
  | .ok s => s
  | .error s => s

/-- The regenerate control is rendered enabled exactly when
`remaining = max_regenerate - regenerate_count > 0`
(`render_video_player`, app.py lines 1046–1067). -/
def regenerateAvailable (s : SessionState) : Bool :=
  decide (0 < s.max_regenerate - s.regenerate_count)

/-- The user-interface events that touch the session state:
the regenerate button (app.py lines 1050–1060), the New Video button
(lines 1070–1077), and one run of the generation block. -/
inductive UIEvent where
  | regenerateClick : UIEvent
  | newVideoClick : UIEvent
  | generateRun : String → AppSettings → PipelineOutcomes → UIEvent

/-- Effect of one event on the session state.  The regenerate button
exists only while `remaining > 0`, so a click outside that guard is a
no-op. -/
def applyEvent (s : SessionState) : UIEvent → SessionState
  | .regenerateClick =>
      if 0 < s.max_regenerate - s.regenerate_count then
        { s with regenerate_count := s.regenerate_count + 1
                 is_generating := true
                 generated_video := none }
      else s
  | .newVideoClick =>
      { s with regenerate_count := 0
               generated_video := none
               prompt_text := ""
               last_prompt := none }
  | .generateRun prompt settings o => finalState (runGeneration s prompt settings o)

/-- Folding a list of events over the freshly initialised session. -/
def runEvents (evs : List UIEvent) : SessionState :=
  evs.foldl applyEvent initSessionState

/-- One pipeline run never touches the regeneration counter or its cap. -/
theorem runGeneration_counter_frozen (s : SessionState) (prompt : String)
    (settings : AppSettings) (o : PipelineOutcomes) :
    (finalState (runGeneration s prompt settings o)).regenerate_count =
      s.regenerate_count ∧
    (finalState (runGeneration s prompt settings o)).max_regenerate =
      s.max_regenerate := by
  cases h : refineStep (translateStep prompt o) settings o with
  | none => simp [runGeneration, finalState, h]
  | some v => cases hg : o.genVideo <;> simp [runGeneration, finalState, h, hg]

/-- True when one of the modelled external calls raised. -/
def exceptFailed : Except ε α → Bool
  | .error _ => true
  | .ok _ => false

/-- True when the generation block ended with an uncaught exception. -/
def isAborted : Except SessionState SessionState → Bool
  | .error _ => true
  | .ok _ => false

/-- The refinement step lets an exception escape exactly when refinement
is enabled, the LLAMA analysis raised, and the legacy fallback raised. -/
theorem refineStep_none_iff (p : String) (settings : AppSettings)
    (o : PipelineOutcomes) :
    refineStep p settings o = none ↔
      (settings.enable_refinement = true ∧ exceptFailed o.llama = true ∧
        exceptFailed o.legacyRefine = true) := by
  rcases o with ⟨tr, ll, lr, ss, gv⟩
  by_cases he : settings.enable_refinement <;>
    cases ll <;>
    rcases lr with e | (_ | rd) <;>
    simp_all [refineStep, exceptFailed]

/-- Outcome set where the LLAMA analysis and the legacy refiner both
raise: the one combination that escapes the generation block uncaught. -/
def abortingOutcomes : PipelineOutcomes :=
  { translation := .error ()
    llama := .error ()
    legacyRefine := .error ()
    searchSave := .ok ()
    genVideo := none }

/-- Outcome set where every stage fails softly and generation itself
returns no video. -/
def softFailOutcomes : PipelineOutcomes :=
  { translation := .error ()
    llama := .error ()
    legacyRefine := .ok none
    searchSave := .error ()
    genVideo := none }

/-- Settings with the refinement stage enabled. -/
def refineSettings : AppSettings :=
  { enable_refinement := true, fps := 8, num_frames := 24, num_steps := 25 }

/-- Invariant of the regeneration counter: it never exceeds the cap, and
the cap stays at its initialised value 2. -/
def CounterInv (s : SessionState) : Prop :=
  s.regenerate_count ≤ s.max_regenerate ∧ s.max_regenerate = 2

/-- Every user-interface event preserves the counter invariant. -/
theorem applyEvent_counterInv {s : SessionState} (e : UIEvent)
    (h : CounterInv s) : CounterInv (applyEvent s e) := by
  obtain ⟨h1, h2⟩ := h
  cases e with
  | regenerateClick =>
      refine ⟨?_, ?_⟩ <;> simp only [applyEvent] <;> split <;> (try simp) <;> omega
  | newVideoClick =>
      refine ⟨?_, ?_⟩ <;> simp [applyEvent, h2]
  | generateRun p g o =>
      have hf := runGeneration_counter_frozen s p g o
      have hf1 : (applyEvent s (.generateRun p g o)).regenerate_count =
          s.regenerate_count := hf.1
      have hf2 : (applyEvent s (.generateRun p g o)).max_regenerate =
          s.max_regenerate := hf.2
      exact ⟨by rw [hf1, hf2]; exact h1, by rw [hf2]; exact h2⟩

/-- The counter invariant holds in every reachable session state. -/
theorem runEvents_counterInv (evs : List UIEvent) : CounterInv (runEvents evs) := by
  suffices h : ∀ s, CounterInv s → CounterInv (evs.foldl applyEvent s) from
    h _ ⟨by simp [initSessionState], rfl⟩
  induction evs with
  | nil => exact fun s h => h
  | cons e t ih => exact fun s h => ih _ (applyEvent_counterInv e h)

end AIVideo

/-- C3: the regeneration counter starts at 0, each regenerate click
performed while the control is available increments it by exactly 1, in
every reachable session state it never exceeds `max_regenerate = 2`, the
regenerate control is unavailable exactly when the counter equals 2, and
the New Video action (starting a new prompt) resets it to 0. -/
theorem c3_regeneration_counter (evs evs2 evs3 : List AIVideo.UIEvent)
    (s : AIVideo.SessionState)
    (h : AIVideo.regenerateAvailable (AIVideo.runEvents evs2) = true) :
    AIVideo.initSessionState.regenerate_count = 0 ∧
    (AIVideo.runEvents evs).regenerate_count ≤ 2 ∧
    (AIVideo.applyEvent (AIVideo.runEvents evs2)
        .regenerateClick).regenerate_count =
      (AIVideo.runEvents evs2).regenerate_count + 1 ∧
    (AIVideo.regenerateAvailable (AIVideo.runEvents evs3) = false ↔
      (AIVideo.runEvents evs3).regenerate_count = 2) ∧
    (AIVideo.applyEvent s .newVideoClick).regenerate_count = 0 := by
  obtain ⟨hle, hmax⟩ := AIVideo.runEvents_counterInv evs
  obtain ⟨hle3, hmax3⟩ := AIVideo.runEvents_counterInv evs3
  refine ⟨rfl, by omega, ?_, ?_, by simp [AIVideo.applyEvent]⟩
  · simp only [AIVideo.regenerateAvailable, decide_eq_true_eq] at h
    simp [AIVideo.applyEvent, h]
  · simp only [AIVideo.regenerateAvailable, decide_eq_false_iff_not]
    omega

/-- C3 witness: from the freshly initialised session the control is
available, a regenerate click takes the counter from 0 to 1, and the
New Video action resets it to 0. -/
theorem c3_regeneration_counter_witness :
    AIVideo.regenerateAvailable (AIVideo.runEvents []) = true ∧
    (AIVideo.applyEvent (AIVideo.runEvents [])
        .regenerateClick).regenerate_count =
      (AIVideo.runEvents []).regenerate_count + 1 ∧
    (AIVideo.regenerateAvailable (AIVideo.runEvents []) = false ↔
      (AIVideo.runEvents []).regenerate_count = 2) ∧
    (AIVideo.applyEvent AIVideo.initSessionState .newVideoClick).regenerate_count = 0 := by
  have h := c3_regeneration_counter [] [] [] AIVideo.initSessionState (by decide)
  exact ⟨by decide, h.2.2.1, h.2.2.2.1, h.2.2.2.2⟩

/-- C8, counterexample: with refinement enabled, when the LLAMA analysis
raises and the legacy refinement fallback inside stage 2 raises too, the
run aborts with an uncaught exception and the session's `is_generating`
flag is left set — the flag is not cleared by the end of that run. -/
theorem c8_fallback_failure_leaves_flag_set :
    AIVideo.isAborted
      (AIVideo.runGeneration AIVideo.initSessionState "a cat"
        AIVideo.refineSettings AIVideo.abortingOutcomes) = true ∧
    (AIVideo.finalState
      (AIVideo.runGeneration AIVideo.initSessionState "a cat"
        AIVideo.refineSettings AIVideo.abortingOutcomes)).is_generating = true := by
  constructor <;>
    simp [AIVideo.runGeneration, AIVideo.finalState, AIVideo.isAborted,
      AIVideo.refineStep, AIVideo.translateStep, AIVideo.abortingOutcomes,
      AIVideo.refineSettings]

/-- C8 (amended): every run of the generation pipeline clears the
session's `is_generating` flag by the end of the run — on every success
and failure path — except in one case: when refinement is enabled and
both the LLAMA analysis and the legacy refinement fallback inside
stage 2 raise, the run aborts uncaught and the flag stays set. -/
theorem c8_generating_flag_cleared
    (st st2 : AIVideo.SessionState) (prompt prompt2 : String)
    (settings settings2 : AIVideo.AppSettings)
    (o o2 : AIVideo.PipelineOutcomes)
    (h : ¬(settings.enable_refinement = true ∧
           AIVideo.exceptFailed o.llama = true ∧
           AIVideo.exceptFailed o.legacyRefine = true)) :
    (AIVideo.isAborted (AIVideo.runGeneration st prompt settings o) = false ∧
     (AIVideo.finalState
       (AIVideo.runGeneration st prompt settings o)).is_generating = false) ∧
    ((settings2.enable_refinement = true ∧
      AIVideo.exceptFailed o2.llama = true ∧
      AIVideo.exceptFailed o2.legacyRefine = true) →
      AIVideo.isAborted (AIVideo.runGeneration st2 prompt2 settings2 o2) = true ∧
      (AIVideo.finalState
        (AIVideo.runGeneration st2 prompt2 settings2 o2)).is_generating = true) := by
  constructor
  · cases hr : AIVideo.refineStep (AIVideo.translateStep prompt o) settings o with
    | none => exact absurd ((AIVideo.refineStep_none_iff _ _ _).mp hr) h
    | some v =>
        cases hg : o.genVideo <;>
          simp [AIVideo.runGeneration, AIVideo.finalState, AIVideo.isAborted, hr, hg]
  · intro hbad
    have hr : AIVideo.refineStep (AIVideo.translateStep prompt2 o2) settings2 o2 = none :=
      (AIVideo.refineStep_none_iff _ _ _).mpr hbad
    constructor <;>
      simp [AIVideo.runGeneration, AIVideo.finalState, AIVideo.isAborted, hr]

/-- C8 witness: a soft-failure run (translation, LLAMA, search save all
fail, the legacy fallback returns a non-dict, no video produced) ends
with the flag cleared; the aborting combination ends with it set. -/
theorem c8_generating_flag_cleared_witness :
    (AIVideo.isAborted
      (AIVideo.runGeneration AIVideo.initSessionState "a dog"
        AIVideo.refineSettings AIVideo.softFailOutcomes) = false ∧
     (AIVideo.finalState
       (AIVideo.runGeneration AIVideo.initSessionState "a dog"
         AIVideo.refineSettings AIVideo.softFailOutcomes)).is_generating = false) ∧
    (AIVideo.isAborted
      (AIVideo.runGeneration AIVideo.initSessionState "a dog"
        AIVideo.refineSettings AIVideo.abortingOutcomes) = true ∧
     (AIVideo.finalState
       (AIVideo.runGeneration AIVideo.initSessionState "a dog"
         AIVideo.refineSettings AIVideo.abortingOutcomes)).is_generating = true) := by
  have h := c8_generating_flag_cleared AIVideo.initSessionState AIVideo.initSessionState
    "a dog" "a dog" AIVideo.refineSettings AIVideo.refineSettings
    AIVideo.softFailOutcomes AIVideo.abortingOutcomes
    (by simp [AIVideo.softFailOutcomes, AIVideo.exceptFailed])
  exact ⟨h.1, h.2 (by simp [AIVideo.abortingOutcomes, AIVideo.exceptFailed,
    AIVideo.refineSettings])⟩

/-- C1, counterexample: with the endpoint answering "loading" (503) on
every request, the adapter issues 31 HTTP requests — one initial request
plus 30 retries — not the 30 requests the claim states (it does return
no result, as claimed). -/
theorem c1_always_loading_sends_31_requests :
    (AIVideo.hfGenerate (AIVideo.hfRequestParams {}) AIVideo.alwaysLoading).2 = 31 ∧
    (AIVideo.hfGenerate (AIVideo.hfRequestParams {}) AIVideo.alwaysLoading).2 ≠ 30 ∧
    (AIVideo.hfGenerate (AIVideo.hfRequestParams {}) AIVideo.alwaysLoading).1 = none := by
  refine ⟨?_, ?_, ?_⟩ <;>
    simp +decide [AIVideo.hfGenerate, AIVideo.hfRetryLoop, AIVideo.alwaysLoading,
      AIVideo.loadingResp]

/-- C1 (amended): for the Remote Inference Adapter's generate operation,
with any request payload: if the endpoint returns a "loading" (503)
response 5 times followed by one success, the adapter issues exactly 6
HTTP requests and returns the success payload; if the endpoint returns
"loading" on every request, the adapter issues exactly 31 HTTP requests
in total (1 initial request + 30 retries) and returns no result. -/
theorem c1_retry_loop_request_counts (payload : List Nat) (p : AIVideo.HFPayloadParams) :
    AIVideo.hfGenerate p (AIVideo.fiveLoadingThenOk payload) = (some payload, 6) ∧
    AIVideo.hfGenerate p AIVideo.alwaysLoading = (none, 31) := by
  constructor
  · simp +decide [AIVideo.hfGenerate, AIVideo.hfRetryLoop, AIVideo.fiveLoadingThenOk,
      AIVideo.loadingResp, AIVideo.okResp]
  · simp +decide [AIVideo.hfGenerate, AIVideo.hfRetryLoop, AIVideo.alwaysLoading,
      AIVideo.loadingResp]

/-- C10: for every settings dictionary handed to the remote generation
path, the request payload is clamped: `num_frames` is at most 48,
`num_inference_steps` at most 50, and the `height`/`width` passed by
`generate_video_hf` at most 512 each; requested values above these
limits are silently reduced to the limit, and the request is still
issued (never rejected): the adapter sends at least one HTTP request for
any settings. -/
theorem c10_payload_clamping (s : AIVideo.GenSettings) :
    (AIVideo.hfRequestParams s).num_frames ≤ 48 ∧
    (AIVideo.hfRequestParams s).num_inference_steps ≤ 50 ∧
    (AIVideo.hfRequestParams s).height ≤ 512 ∧
    (AIVideo.hfRequestParams s).width ≤ 512 ∧
    (∀ v, s.num_frames = some v → 48 < v →
      (AIVideo.hfRequestParams s).num_frames = 48) ∧
    (∀ v, s.num_steps = some v → 50 < v →
      (AIVideo.hfRequestParams s).num_inference_steps = 50) ∧
    (∀ v, s.height = some v → 512 < v →
      (AIVideo.hfRequestParams s).height = 512) ∧
    (∀ v, s.width = some v → 512 < v →
      (AIVideo.hfRequestParams s).width = 512) ∧
    (∀ responses, 1 ≤ (AIVideo.generate_video_hf s responses).2) := by
  refine ⟨?_, ?_, ?_, ?_, ?_, ?_, ?_, ?_, ?_⟩
  · simp [AIVideo.hfRequestParams, AIVideo.buildPayload]
  · simp [AIVideo.hfRequestParams, AIVideo.buildPayload]
  · simp [AIVideo.hfRequestParams, AIVideo.buildPayload]
  · simp [AIVideo.hfRequestParams, AIVideo.buildPayload]
  · intro v hv hlt
    simp [AIVideo.hfRequestParams, AIVideo.buildPayload, hv]
    omega
  · intro v hv hlt
    simp [AIVideo.hfRequestParams, AIVideo.buildPayload, hv]
    omega
  · intro v hv hlt
    simp [AIVideo.hfRequestParams, AIVideo.buildPayload, hv]
    omega
  · intro v hv hlt
    simp [AIVideo.hfRequestParams, AIVideo.buildPayload, hv]
    omega
  · intro responses
    have h := AIVideo.hfRetryLoop_sent_le 30 responses (responses 0) 1 0 (by omega)
    simpa [AIVideo.generate_video_hf, AIVideo.hfGenerate] using
      (by split <;> simpa using h :
        1 ≤ (if (AIVideo.hfRetryLoop responses (responses 0) 1 0).1.status ≠ 200 then
              ((none : Option (List Nat)), (AIVideo.hfRetryLoop responses (responses 0) 1 0).2)
            else (some (AIVideo.hfRetryLoop responses (responses 0) 1 0).1.body,
              (AIVideo.hfRetryLoop responses (responses 0) 1 0).2)).2)

/-- C10 witness: a concrete over-limit settings dictionary is clamped to
exactly the limits and the adapter still issues a request. -/
theorem c10_payload_clamping_witness :
    (AIVideo.hfRequestParams
      { num_frames := some 100, num_steps := some 99,
        height := some 1024, width := some 1024 }).num_frames = 48 ∧
    (AIVideo.hfRequestParams
      { num_frames := some 100, num_steps := some 99,
        height := some 1024, width := some 1024 }).num_inference_steps = 50 ∧
    (AIVideo.hfRequestParams
      { num_frames := some 100, num_steps := some 99,
        height := some 1024, width := some 1024 }).height = 512 ∧
    (AIVideo.hfRequestParams
      { num_frames := some 100, num_steps := some 99,
        height := some 1024, width := some 1024 }).width = 512 ∧
    1 ≤ (AIVideo.generate_video_hf
      { num_frames := some 100, num_steps := some 99,
        height := some 1024, width := some 1024 } AIVideo.alwaysLoading).2 := by
  have h := c10_payload_clamping
    { num_frames := some 100, num_steps := some 99,
      height := some 1024, width := some 1024 }
  exact ⟨h.2.2.2.2.1 100 rfl (by decide), h.2.2.2.2.2.1 99 rfl (by decide),
    h.2.2.2.2.2.2.1 1024 rfl (by decide), h.2.2.2.2.2.2.2.1 1024 rfl (by decide),
    h.2.2.2.2.2.2.2.2 AIVideo.alwaysLoading⟩

namespace AIVideo

/-! ## Local history store — src/storage.py -/

/-- A scalar value of the settings dictionary as the stores persist it
(string, integer or boolean entries of the `settings` snapshot). -/
inductive SVal where
  | s (v : String)
  | i (v : Int)
  | b (v : Bool)
deriving DecidableEq

/-- The settings snapshot: an insertion-ordered dictionary. -/
abbrev SettingsDict := List (String × SVal)

/-- One record of `outputs/history.json` (`save_to_history`,
storage.py lines 52–59).  `created_at` abstracts the
`datetime.now().isoformat()` timestamp order-isomorphically. -/
structure HEntry where
  id : Nat
  prompt : String
  model : String
  video_path : String
  settings : SettingsDict
  created_at : Nat
deriving DecidableEq

/-- Embedding of `save_to_history` (storage.py lines 32–69): build the entry with
`id = len(history) + 1`, insert at position 0, truncate to the last 50
entries.  Returns the new store contents and the saved entry. -/
def save_to_history (history : List HEntry) (prompt model video_path : String)
    (settings : SettingsDict) (now : Nat) : List HEntry × HEntry :=
  let entry : HEntry :=
    { id := history.length + 1
      prompt := prompt
      model := model
      video_path := video_path
      settings := settings
      created_at := now }
  ((entry :: history).take 50, entry)

/-- Embedding of `delete_from_history` (storage.py lines 72–90): remove the first
entry whose id matches; report whether one was found. -/
def delete_from_history (history : List HEntry) (entry_id : Nat) :
    List HEntry × Bool :=
  if history.any (fun e => e.id == entry_id) then
    (history.eraseP (fun e => e.id == entry_id), true)
  else
    (history, false)

/-- The arguments of one `save_to_history` call; `now` is the clock
reading at that call. -/
structure SaveReq where
  prompt : String
  model : String
  video_path : String
  settings : SettingsDict
  now : Nat
deriving DecidableEq

/-- The store contents after one save call. -/
def applySave (h : List HEntry) (r : SaveReq) : List HEntry :=
  (save_to_history h r.prompt r.model r.video_path r.settings r.now).1

/-- The entry a save call creates and returns. -/
def saveEntry (h : List HEntry) (r : SaveReq) : HEntry :=
  (save_to_history h r.prompt r.model r.video_path r.settings r.now).2

/-- The store contents after a sequence of save calls against an
initially empty history file. -/
def runSaves (reqs : List SaveReq) : List HEntry :=
  reqs.foldl applySave []

/-- Store invariant carried through a run of saves whose clock never ran
past `bound`: bounded size, timestamps at most `bound`, newest first. -/
def HistInv (bound : Nat) (h : List HEntry) : Prop :=
  h.length ≤ 50 ∧ (∀ e ∈ h, e.created_at ≤ bound) ∧
    h.Pairwise (fun a b => b.created_at ≤ a.created_at)

/-- One save preserves the store invariant when the clock has not gone
backwards. -/
theorem applySave_histInv {bound : Nat} {h : List HEntry} (r : SaveReq)
    (hinv : HistInv bound h) (hb : bound ≤ r.now) :
    HistInv r.now (applySave h r) := by
  obtain ⟨hlen, hall, hsort⟩ := hinv
  refine ⟨?_, ?_, ?_⟩
  · simp [applySave, save_to_history]
  · intro e he
    have hmem := List.take_subset _ _ he
    rcases List.mem_cons.mp hmem with rfl | hmem2
    · exact Nat.le_refl _
    · exact Nat.le_trans (hall e hmem2) hb
  · refine List.Pairwise.sublist (List.take_sublist _ _) ?_
    refine List.Pairwise.cons ?_ hsort
    intro e he
    exact Nat.le_trans (hall e he) hb

/-- The store invariant holds after any chronological sequence of
saves. -/
theorem runSaves_histInv :
    ∀ (reqs : List SaveReq) (bound : Nat) (h : List HEntry),
      HistInv bound h → (∀ r ∈ reqs, bound ≤ r.now) →
      reqs.Pairwise (fun a b => a.now ≤ b.now) →
      ∃ bound2, HistInv bound2 (reqs.foldl applySave h) := by
  intro reqs
  induction reqs with
  | nil => exact fun bound h hinv _ _ => ⟨bound, hinv⟩
  | cons r rest ih =>
      intro bound h hinv hfuture hchron
      have hpair := List.pairwise_cons.mp hchron
      refine ih r.now (applySave h r)
        (applySave_histInv r hinv (hfuture r (List.mem_cons_self r rest))) ?_ hpair.2
      intro r2 hr2
      exact hpair.1 r2 hr2

/-- The length of a history store after a run of saves, from any
starting store: it grows by one per save until the 50-entry cap. -/
theorem runSaves_length :
    ∀ (reqs : List SaveReq) (h : List HEntry), h.length ≤ 50 →
      (reqs.foldl applySave h).length = min (h.length + reqs.length) 50 := by
  intro reqs
  induction reqs with
  | nil => intro h hle; simp; omega
  | cons r rest ih =>
      intro h hle
      have h1 : (applySave h r).length = min (h.length + 1) 50 := by
        simp [applySave, save_to_history, List.length_take]
        omega
      have h2 := ih (applySave h r) (by omega)
      rw [List.foldl_cons, h2, h1]
      simp only [List.length_cons]
      omega

end AIVideo

namespace AIVideo

/-- A concrete save request used for concrete store scenarios; `k` is
both a distinguishing label and the clock reading. -/
def histReq (k : Nat) : SaveReq :=
  { prompt := "p", model := "m", video_path := "v", settings := [], now := k }

end AIVideo

/-- C5: after any chronological sequence of `save_to_history`
insertions into an initially empty store, the history contains at most
50 entries, ordered newest-first (each entry's `created_at` is at least
the `created_at` of the entry after it), and the entry a save creates is
at position 0 of the store it returns. -/
theorem c5_history_bounded_newest_first (reqs : List AIVideo.SaveReq)
    (h : List AIVideo.HEntry) (r : AIVideo.SaveReq)
    (hchron : reqs.Pairwise (fun a b => a.now ≤ b.now)) :
    (AIVideo.runSaves reqs).length ≤ 50 ∧
    (AIVideo.runSaves reqs).Chain' (fun a b => b.created_at ≤ a.created_at) ∧
    (AIVideo.applySave h r).head? = some (AIVideo.saveEntry h r) := by
  have hinv0 : AIVideo.HistInv 0 [] := ⟨by simp, by simp, List.Pairwise.nil⟩
  obtain ⟨bound2, hlen, _, hsort⟩ :=
    AIVideo.runSaves_histInv reqs 0 [] hinv0 (fun r _ => Nat.zero_le _) hchron
  refine ⟨hlen, hsort.chain', ?_⟩
  show ((AIVideo.saveEntry h r :: h).take 50).head? = some (AIVideo.saveEntry h r)
  rw [show (50 : Nat) = 49 + 1 from rfl, List.take_succ_cons]
  rfl

/-- C5 witness: two chronological saves leave a 2-entry store sorted
newest-first, with the latest save at position 0. -/
theorem c5_history_bounded_newest_first_witness :
    (AIVideo.runSaves [AIVideo.histReq 1, AIVideo.histReq 2]).length ≤ 50 ∧
    (AIVideo.runSaves [AIVideo.histReq 1, AIVideo.histReq 2]).Chain'
      (fun a b => b.created_at ≤ a.created_at) ∧
    (AIVideo.applySave (AIVideo.runSaves [AIVideo.histReq 1, AIVideo.histReq 2])
        (AIVideo.histReq 3)).head? =
      some (AIVideo.saveEntry
        (AIVideo.runSaves [AIVideo.histReq 1, AIVideo.histReq 2])
        (AIVideo.histReq 3)) :=
  c5_history_bounded_newest_first [AIVideo.histReq 1, AIVideo.histReq 2]
    (AIVideo.runSaves [AIVideo.histReq 1, AIVideo.histReq 2]) (AIVideo.histReq 3)
    (by simp [AIVideo.histReq])

/-- C6, counterexample: ids are not strictly monotonic once a deletion
intervenes.  Save three entries (created ids 1, 2, 3), delete the entry
with id 2, save again: the new entry receives id 3, which is not
strictly greater than the previously created id 3. -/
theorem c6_id_reused_after_delete :
    (AIVideo.saveEntry
      (AIVideo.runSaves [AIVideo.histReq 1, AIVideo.histReq 2])
      (AIVideo.histReq 3)).id = 3 ∧
    (AIVideo.saveEntry
      (AIVideo.delete_from_history
        (AIVideo.runSaves [AIVideo.histReq 1, AIVideo.histReq 2, AIVideo.histReq 3])
        2).1
      (AIVideo.histReq 4)).id = 3 := by
  constructor <;> rfl

/-- C6 (amended): `save_to_history` assigns `id = current store length
+ 1`.  Hence for a sequence of saves into a fresh store with no
deletions the k-th save (k counted from 1) receives id `min k 51`: ids
are strictly increasing through the 51st save and repeat afterwards
(the store being capped at 50 entries), and a deletion can likewise make
a later id repeat an earlier one. -/
theorem c6_id_assignment (h : List AIVideo.HEntry) (r r2 : AIVideo.SaveReq)
    (reqs : List AIVideo.SaveReq) :
    (AIVideo.saveEntry h r).id = h.length + 1 ∧
    (AIVideo.saveEntry (AIVideo.runSaves reqs) r2).id =
      min (reqs.length + 1) 51 := by
  constructor
  · rfl
  · show (AIVideo.runSaves reqs).length + 1 = min (reqs.length + 1) 51
    have hlen := AIVideo.runSaves_length reqs [] (by simp)
    simp only [List.length_nil, Nat.zero_add] at hlen
    simp only [AIVideo.runSaves]
    omega

namespace AIVideo

/-! ## Cloud Worker Loop — src/cloud_worker.py -/

/-- The `status` field of a job record (spec §4.3). -/
inductive JStatus where
  | pending
  | processing
  | completed
  | error
deriving DecidableEq

/-- One document of the `video_queue` collection, with the fields
`process_jobs` reads or writes. -/
structure Job where
  status : JStatus
  prompt : String
  settings : SettingsDict
  model : Option String
  model_used : Option String
  video_url : Option String
  error : Option String
  resolution : Option String
  completed_at : Option Nat
deriving DecidableEq

/-- The job collection: document id to record.  Document ids are unique,
expressed by a `Nodup` hypothesis on the key column where needed. -/
abbrev JobStore := List (String × Job)

/-- A freshly submitted job as `submit_job_to_cloud` creates it
(firebase_utils.py lines 75–81). -/
def pendingJob (prompt : String) (settings : SettingsDict) : Job :=
  { status := .pending
    prompt := prompt
    settings := settings
    model := none
    model_used := none
    video_url := none
    error := none
    resolution := none
    completed_at := none }

/-- A Firestore partial update of one document: every entry with the
given id gets its record rewritten by `f`; the rest stay unchanged. -/
def updateJobStore (store : JobStore) (id : String) (f : Job → Job) : JobStore :=
  store.map (fun kv => if kv.1 = id then (kv.1, f kv.2) else kv)

/-- The `where("status", "==", "pending").limit(1)` query
(cloud_worker.py line 40): the first pending document. -/
def findPending (store : JobStore) : Option (String × Job) :=
  store.find? (fun kv => kv.2.status == JStatus.pending)

/-- The processing update (cloud_worker.py lines 51–54): sets
`status = "processing"` and writes the model identifier into the
`model` field.  No other field is touched. -/
def markProcessing (modelName : String) (j : Job) : Job :=
  { j with status := .processing, model := some modelName }

/-- Integer settings lookup with default, as `settings.get(key, d)`. -/
def settingInt (s : SettingsDict) (k : String) (d : Int) : Int :=
  match s.lookup k with
  | some (SVal.i v) => v
  | _ => d

/-- The `f"{width}x{height}"` resolution string of the completion update
(cloud_worker.py lines 72–73 and 113). -/
def resolutionOf (s : SettingsDict) : String :=
  toString (settingInt s "width" 512) ++ "x" ++ toString (settingInt s "height" 512)

/-- The completion update (cloud_worker.py lines 110–116): sets
`status = "completed"`, the absolute output path, the resolution,
`model_used`, and `completed_at`. -/
def markCompleted (modelName videoPath resolution : String) (t : Nat)
    (j : Job) : Job :=
  { j with
    status := .completed
    video_url := some videoPath
    resolution := some resolution
    model_used := some modelName
    completed_at := some t }

/-- The error update (cloud_worker.py lines 125–128): sets
`status = "error"` and the exception message. -/
def markError (msg : String) (j : Job) : Job :=
  { j with status := .error, error := some msg }

/-- What one iteration's generation-and-save attempt did: the path that
was saved, or the exception message.  `t` is the completion clock. -/
structure IterOracle where
  gen : Except String String
  t : Nat

/-- The second update of an iteration, as a function of the attempt
outcome and the claimed job's settings. -/
def jobResult (m : String) (o : IterOracle) (j : Job) : Job → Job :=
  match o.gen with
  | .ok path => markCompleted m path (resolutionOf j.settings) o.t
  | .error e => markError e

/-- The store states written by the poll loop of `process_jobs`
(cloud_worker.py lines 37–134), one iteration per oracle entry: an
iteration that claims a pending job performs the processing update and
then the completion or error update; an iteration that finds no pending
job writes nothing. -/
def workerWrites (m : String) : JobStore → List IterOracle → List JobStore
  | _, [] => []
  | store, o :: rest =>
      match findPending store with
      | none => workerWrites m store rest
      | some (id, j) =>
          let s1 := updateJobStore store id (markProcessing m)
          let s2 := updateJobStore s1 id (jobResult m o j)
          s1 :: s2 :: workerWrites m s2 rest

/-- The status transitions the spec admits between two consecutive
observable store states: stay, claim, or finish. -/
def okStatusStep (a b : JStatus) : Prop :=
  a = b ∨ (a = .pending ∧ b = .processing) ∨
    (a = .processing ∧ (b = .completed ∨ b = .error))

/-- Relation between consecutive store states: the document set is
stable and every document's status makes one admitted transition. -/
def okStoreStep (s s' : JobStore) : Prop :=
  (∀ id, (s.lookup id).isSome = (s'.lookup id).isSome) ∧
  (∀ id j j', s.lookup id = some j → s'.lookup id = some j' →
    okStatusStep j.status j'.status)

/-- An update keeps the key column unchanged. -/
theorem updateJobStore_keys (s : JobStore) (id : String) (f : Job → Job) :
    (updateJobStore s id f).map Prod.fst = s.map Prod.fst := by
  induction s with
  | nil => rfl
  | cons kv rest ih =>
      simp only [updateJobStore, List.map_cons] at ih ⊢
      by_cases h : kv.1 = id <;> simp [h, ih]

/-- Lookup after an update: the updated id's record is rewritten, every
other lookup is untouched. -/
theorem lookup_updateJobStore (id : String) (f : Job → Job) :
    ∀ (s : JobStore) (id' : String),
      (updateJobStore s id f).lookup id' =
        if id' = id then (s.lookup id').map f else s.lookup id' := by
  intro s
  induction s with
  | nil => intro id'; simp [updateJobStore]
  | cons kv rest ih =>
      intro id'
      obtain ⟨k, v⟩ := kv
      simp only [updateJobStore, List.map_cons] at ih ⊢
      by_cases h1 : k = id <;> by_cases h2 : id' = k
      · subst h1; subst h2
        simp [List.lookup_cons]
      · have hne : ¬(id' = id) := h1 ▸ h2
        have hb2 : (id' == id) = false := beq_eq_false_iff_ne.mpr hne
        simp [h1, List.lookup_cons, hb2, hne, ih id']
      · subst h2
        have hne : ¬(id' = id) := h1
        simp [h1, List.lookup_cons, hne]
      · have hb : (id' == k) = false := beq_eq_false_iff_ne.mpr h2
        simp [h1, List.lookup_cons, hb, ih id']

/-- With unique document ids, membership determines lookup. -/
theorem lookup_of_mem_nodup :
    ∀ (s : JobStore) (id : String) (j : Job),
      (s.map Prod.fst).Nodup → (id, j) ∈ s → s.lookup id = some j := by
  intro s
  induction s with
  | nil => intro id j _ hm; cases hm
  | cons kv rest ih =>
      intro id j hn hm
      obtain ⟨k, v⟩ := kv
      have hn2 := List.nodup_cons.mp (show (k :: rest.map Prod.fst).Nodup by
        simpa using hn)
      rcases List.mem_cons.mp hm with heq | hm2
      · cases heq
        simp [List.lookup_cons]
      · by_cases h : k = id
        · subst h
          exact absurd (List.mem_map_of_mem Prod.fst hm2) hn2.1
        · have hb : (id == k) = false :=
            beq_eq_false_iff_ne.mpr (fun hc => h hc.symm)
          simp only [List.lookup_cons, hb]
          exact ih id j hn2.2 hm2

end AIVideo

namespace AIVideo

/-- A claimed job was in the store and pending at query time. -/
theorem findPending_spec (s : JobStore) (id : String) (j : Job)
    (h : findPending s = some (id, j)) :
    (id, j) ∈ s ∧ j.status = .pending := by
  refine ⟨List.mem_of_find?_eq_some h, ?_⟩
  have hp := List.find?_some h
  simpa using hp

/-- The processing update is an admitted store transition when the
claimed job is pending. -/
theorem okStoreStep_claim (store : JobStore) (m : String) (id : String)
    (j : Job) (hl : store.lookup id = some j) (hp : j.status = .pending) :
    okStoreStep store (updateJobStore store id (markProcessing m)) := by
  constructor
  · intro id'
    rw [lookup_updateJobStore]
    split
    · cases store.lookup id' <;> rfl
    · rfl
  · intro id' j0 j0' hl0 hl0'
    rw [lookup_updateJobStore] at hl0'
    by_cases h : id' = id
    · subst h
      rw [hl0] at hl0' hl
      have hj0 : j0 = j := by injection hl
      rw [if_pos rfl,
        show (some j0).map (markProcessing m) = some (markProcessing m j0) from rfl]
        at hl0'
      injection hl0' with hj0'
      rw [← hj0']
      exact Or.inr (Or.inl ⟨by rw [hj0]; exact hp, rfl⟩)
    · rw [if_neg h] at hl0'
      rw [hl0] at hl0'
      cases hl0'
      exact Or.inl rfl

/-- The finishing update is an admitted store transition when the
claimed job is processing and the update sets a terminal status. -/
theorem okStoreStep_finish (s1 : JobStore) (id : String) (g : Job → Job)
    (jp : Job) (hl : s1.lookup id = some jp) (hp : jp.status = .processing)
    (hg : (g jp).status = .completed ∨ (g jp).status = .error) :
    okStoreStep s1 (updateJobStore s1 id g) := by
  constructor
  · intro id'
    rw [lookup_updateJobStore]
    split
    · cases s1.lookup id' <;> rfl
    · rfl
  · intro id' j0 j0' hl0 hl0'
    rw [lookup_updateJobStore] at hl0'
    by_cases h : id' = id
    · subst h
      rw [hl0] at hl0' hl
      have hj0 : j0 = jp := by injection hl
      rw [if_pos rfl, show (some j0).map g = some (g j0) from rfl] at hl0'
      injection hl0' with hj0'
      rw [← hj0']
      subst hj0
      exact Or.inr (Or.inr ⟨hp, hg⟩)
    · rw [if_neg h] at hl0'
      rw [hl0] at hl0'
      cases hl0'
      exact Or.inl rfl

/-- The second update of an iteration always sets a terminal status. -/
theorem jobResult_terminal (m : String) (o : IterOracle) (j jp : Job) :
    (jobResult m o j jp).status = .completed ∨
    (jobResult m o j jp).status = .error := by
  cases hg : o.gen <;> simp [jobResult, hg, markCompleted, markError]

/-- Every observable store sequence produced by the worker loop moves
every document along admitted status transitions only. -/
theorem workerWrites_chain (m : String) :
    ∀ (os : List IterOracle) (store : JobStore),
      (store.map Prod.fst).Nodup →
      List.Chain' okStoreStep (store :: workerWrites m store os) := by
  intro os
  induction os with
  | nil => intro store hn; simp [workerWrites]
  | cons o rest ih =>
      intro store hn
      cases hf : findPending store with
      | none => simpa [workerWrites, hf] using ih store hn
      | some pair =>
          obtain ⟨id, j⟩ := pair
          obtain ⟨hmem, hp⟩ := findPending_spec store id j hf
          have hl := lookup_of_mem_nodup store id j hn hmem
          have hn1 : ((updateJobStore store id (markProcessing m)).map
              Prod.fst).Nodup := by rw [updateJobStore_keys]; exact hn
          have hl1 : (updateJobStore store id (markProcessing m)).lookup id =
              some (markProcessing m j) := by
            rw [lookup_updateJobStore, if_pos rfl, hl]; rfl
          have hn2 : ((updateJobStore (updateJobStore store id (markProcessing m))
              id (jobResult m o j)).map Prod.fst).Nodup := by
            rw [updateJobStore_keys, updateJobStore_keys]; exact hn
          have hstep1 := okStoreStep_claim store m id j hl hp
          have hstep2 := okStoreStep_finish
            (updateJobStore store id (markProcessing m)) id (jobResult m o j)
            (markProcessing m j) hl1 rfl (jobResult_terminal m o j _)
          simp only [workerWrites, hf]
          exact List.chain'_cons.mpr ⟨hstep1,
            List.chain'_cons.mpr ⟨hstep2, ih _ hn2⟩⟩

/-- A document that is not pending is never touched again by the worker:
its record is identical in every later observable store state. -/
theorem workerWrites_terminal (m : String) :
    ∀ (os : List IterOracle) (store : JobStore) (id : String) (j : Job),
      (store.map Prod.fst).Nodup →
      store.lookup id = some j → j.status ≠ .pending →
      ∀ s' ∈ workerWrites m store os, s'.lookup id = some j := by
  intro os
  induction os with
  | nil => intro store id j _ _ _ s' hm; cases hm
  | cons o rest ih =>
      intro store id j hn hl hnp s' hm
      cases hf : findPending store with
      | none =>
          rw [workerWrites, hf] at hm
          exact ih store id j hn hl hnp s' hm
      | some pair =>
          obtain ⟨cid, cj⟩ := pair
          obtain ⟨hmem, hcp⟩ := findPending_spec store cid cj hf
          have hlc := lookup_of_mem_nodup store cid cj hn hmem
          have hne : ¬(id = cid) := by
            intro hc
            subst hc
            rw [hl] at hlc
            cases hlc
            exact hnp hcp
          have hl1 : (updateJobStore store cid (markProcessing m)).lookup id =
              some j := by rw [lookup_updateJobStore, if_neg hne]; exact hl
          have hl2 : (updateJobStore (updateJobStore store cid (markProcessing m))
              cid (jobResult m o cj)).lookup id = some j := by
            rw [lookup_updateJobStore, if_neg hne]; exact hl1
          have hn2 : ((updateJobStore (updateJobStore store cid (markProcessing m))
              cid (jobResult m o cj)).map Prod.fst).Nodup := by
            rw [updateJobStore_keys, updateJobStore_keys]; exact hn
          rw [workerWrites, hf] at hm
          rcases List.mem_cons.mp hm with rfl | hm2
          · exact hl1
          rcases List.mem_cons.mp hm2 with rfl | hm3
          · exact hl2
          · exact ih _ id j hn2 hl2 hnp s' hm3

/-- Along any chain of admitted transitions, a document that starts
pending and is later seen terminal was seen processing in between. -/
theorem chain_pending_reaches_processing :
    ∀ (tr : List JobStore) (s0 : JobStore) (id : String) (j : Job),
      List.Chain' okStoreStep (s0 :: tr) →
      s0.lookup id = some j → j.status = .pending →
      ∀ s' ∈ tr, ∀ j', s'.lookup id = some j' →
        (j'.status = .completed ∨ j'.status = .error) →
        ∃ s2, s2 ∈ (s0 :: tr) ∧ ∃ j2, s2.lookup id = some j2 ∧
          j2.status = .processing := by
  intro tr
  induction tr with
  | nil => intro s0 id j _ _ _ s' hm; cases hm
  | cons s1 rest ih =>
      intro s0 id j hch hl hp s' hm j' hl' ht
      obtain ⟨h01, hch1⟩ := List.chain'_cons.mp hch
      have hs1some : (s1.lookup id).isSome := by rw [← h01.1 id, hl]; rfl
      obtain ⟨j1, hj1⟩ := Option.isSome_iff_exists.mp hs1some
      rcases h01.2 id j j1 hl hj1 with heq | ⟨_, hproc⟩ | ⟨hproc0, _⟩
      · rcases List.mem_cons.mp hm with rfl | hm2
        · rw [hl'] at hj1
          cases hj1
          rw [← heq, hp] at ht
          rcases ht with hc | hc <;> cases hc
        · obtain ⟨s2, hs2mem, hrest⟩ :=
            ih s1 id j1 hch1 hj1 (by rw [← heq]; exact hp) s' hm2 j' hl' ht
          exact ⟨s2, List.mem_cons_of_mem _ hs2mem, hrest⟩
      · exact ⟨s1, List.mem_cons_of_mem _ (List.mem_cons_self _ _), j1, hj1, hproc⟩
      · rw [hp] at hproc0
        cases hproc0

end AIVideo

namespace AIVideo

/-- A one-job store with a freshly submitted (pending) document. -/
def exStore : JobStore := [("j1", pendingJob "a cat" [])]

/-- An iteration whose generation-and-save attempt succeeds. -/
def exOracle : IterOracle := { gen := .ok "cloud_outputs/j1.mp4", t := 7 }

/-- State after the processing update of the example iteration. -/
def exS1 : JobStore := updateJobStore exStore "j1" (markProcessing "damo")

/-- State after the completion update of the example iteration. -/
def exS2 : JobStore :=
  updateJobStore exS1 "j1" (jobResult "damo" exOracle (pendingJob "a cat" []))

/-- A document already in the terminal `completed` state. -/
def exDoneJob : Job :=
  { status := .completed
    prompt := "q"
    settings := []
    model := some "damo"
    model_used := some "damo"
    video_url := some "cloud_outputs/j2.mp4"
    error := none
    resolution := some "512x512"
    completed_at := some 3 }

end AIVideo

/-- C2: for every job record processed by the Worker Loop: (i) across
every observable store state the status of every document moves only
along `pending -> processing -> completed | error` (or stays put);
(ii) a document in a terminal state (`completed` or `error`) is never
touched again — its record is identical in every later state, so the
worker never re-queues or retries it; (iii) a document that starts
pending and is later seen `completed` or `error` was seen `processing`
at some state in between. -/
theorem c2_job_status_lifecycle
    (m m2 m3 : String) (os os2 os3 : List AIVideo.IterOracle)
    (store store2 store3 : AIVideo.JobStore) (id2 id3 : String)
    (j2 j3 j3' : AIVideo.Job) (s3 : AIVideo.JobStore)
    (h1 : (store.map Prod.fst).Nodup)
    (h2n : (store2.map Prod.fst).Nodup)
    (h2l : store2.lookup id2 = some j2)
    (h2t : j2.status = .completed ∨ j2.status = .error)
    (h3n : (store3.map Prod.fst).Nodup)
    (h3l : store3.lookup id3 = some j3)
    (h3p : j3.status = .pending)
    (h3m : s3 ∈ AIVideo.workerWrites m3 store3 os3)
    (h3l2 : s3.lookup id3 = some j3')
    (h3t : j3'.status = .completed ∨ j3'.status = .error) :
    List.Chain' AIVideo.okStoreStep (store :: AIVideo.workerWrites m store os) ∧
    (∀ s' ∈ AIVideo.workerWrites m2 store2 os2, s'.lookup id2 = some j2) ∧
    (∃ s2, s2 ∈ store3 :: AIVideo.workerWrites m3 store3 os3 ∧
      ∃ jp, s2.lookup id3 = some jp ∧ jp.status = .processing) := by
  refine ⟨AIVideo.workerWrites_chain m os store h1, ?_, ?_⟩
  · intro s' hm
    refine AIVideo.workerWrites_terminal m2 os2 store2 id2 j2 h2n h2l ?_ s' hm
    intro hc
    rcases h2t with h | h <;> rw [hc] at h <;> cases h
  · exact AIVideo.chain_pending_reaches_processing
      (AIVideo.workerWrites m3 store3 os3) store3 id3 j3
      (AIVideo.workerWrites_chain m3 os3 store3 h3n) h3l h3p s3 h3m j3' h3l2 h3t

/-- C2 witness: on a concrete one-job store, the two-write iteration
forms an admitted chain, a completed document survives a later
iteration unchanged, and the job seen completed was seen processing. -/
theorem c2_job_status_lifecycle_witness :
    List.Chain' AIVideo.okStoreStep
      (AIVideo.exStore ::
        AIVideo.workerWrites "damo" AIVideo.exStore [AIVideo.exOracle]) ∧
    (∀ s' ∈ AIVideo.workerWrites "damo" [("j2", AIVideo.exDoneJob)]
        [AIVideo.exOracle], s'.lookup "j2" = some AIVideo.exDoneJob) ∧
    (∃ s2, s2 ∈ AIVideo.exStore ::
        AIVideo.workerWrites "damo" AIVideo.exStore [AIVideo.exOracle] ∧
      ∃ jp, s2.lookup "j1" = some jp ∧ jp.status = .processing) := by
  have hm : AIVideo.exS2 ∈
      AIVideo.workerWrites "damo" AIVideo.exStore [AIVideo.exOracle] := by
    have he : AIVideo.workerWrites "damo" AIVideo.exStore [AIVideo.exOracle] =
        [AIVideo.exS1, AIVideo.exS2] := rfl
    rw [he]
    exact List.mem_cons_of_mem _ (List.mem_cons_self _ _)
  exact c2_job_status_lifecycle "damo" "damo" "damo"
    [AIVideo.exOracle] [AIVideo.exOracle] [AIVideo.exOracle]
    AIVideo.exStore [("j2", AIVideo.exDoneJob)] AIVideo.exStore
    "j2" "j1" AIVideo.exDoneJob (AIVideo.pendingJob "a cat" [])
    (AIVideo.jobResult "damo" AIVideo.exOracle (AIVideo.pendingJob "a cat" [])
      (AIVideo.markProcessing "damo" (AIVideo.pendingJob "a cat" [])))
    AIVideo.exS2
    (by decide) (by decide) rfl (Or.inl rfl) (by decide) rfl rfl hm rfl
    (Or.inl rfl)

/-- C7, counterexample: on a concrete pending job, the update that sets
`status = "processing"` (the first write of the iteration) writes the
model identifier into the `model` field and leaves `model_used` unset
(`None`) — contrary to the claim that `model_used` is written in that
same update.  `model_used` is only written by the completion update. -/
theorem c7_processing_update_lacks_model_used :
    ((AIVideo.workerWrites "damo" AIVideo.exStore [AIVideo.exOracle]).headD
        []).lookup "j1" =
      some { status := .processing
             prompt := "a cat"
             settings := []
             model := some "damo"
             model_used := none
             video_url := none
             error := none
             resolution := none
             completed_at := none } ∧
    (((AIVideo.workerWrites "damo" AIVideo.exStore [AIVideo.exOracle]).headD
        []).lookup "j1").map AIVideo.Job.model_used = some none := by
  constructor <;> rfl

/-- C7 (amended): when the Worker Loop claims a pending job, the first
update — the one performed before generation begins — sets
`status = "processing"` and writes the model identifier into the `model`
field, leaving `model_used` unchanged; `model_used` is written (together
with `status = "completed"`) only by the completion update. -/
theorem c7_claim_update_fields (m : String) (store : AIVideo.JobStore)
    (o : AIVideo.IterOracle) (os : List AIVideo.IterOracle) (id : String)
    (j : AIVideo.Job)
    (hn : (store.map Prod.fst).Nodup)
    (hfind : AIVideo.findPending store = some (id, j)) :
    (AIVideo.workerWrites m store (o :: os)).head? =
      some (AIVideo.updateJobStore store id (AIVideo.markProcessing m)) ∧
    (AIVideo.updateJobStore store id (AIVideo.markProcessing m)).lookup id =
      some (AIVideo.markProcessing m j) ∧
    (AIVideo.markProcessing m j).status = .processing ∧
    (AIVideo.markProcessing m j).model = some m ∧
    (AIVideo.markProcessing m j).model_used = j.model_used ∧
    (∀ path, o.gen = .ok path →
      (AIVideo.jobResult m o j (AIVideo.markProcessing m j)).model_used =
        some m ∧
      (AIVideo.jobResult m o j (AIVideo.markProcessing m j)).status =
        .completed) := by
  obtain ⟨hmem, hp⟩ := AIVideo.findPending_spec store id j hfind
  have hl := AIVideo.lookup_of_mem_nodup store id j hn hmem
  refine ⟨?_, ?_, rfl, rfl, rfl, ?_⟩
  · simp only [AIVideo.workerWrites, hfind, List.head?]
  · rw [AIVideo.lookup_updateJobStore, if_pos rfl, hl]
    rfl
  · intro path hpath
    simp [AIVideo.jobResult, hpath, AIVideo.markCompleted]

/-- C7 witness: on the concrete one-job store, the first write is the
processing update, it sets `model` and keeps `model_used` empty, and the
completion update then sets `model_used`. -/
theorem c7_claim_update_fields_witness :
    (AIVideo.workerWrites "damo" AIVideo.exStore
        [AIVideo.exOracle]).head? = some AIVideo.exS1 ∧
    AIVideo.exS1.lookup "j1" =
      some (AIVideo.markProcessing "damo" (AIVideo.pendingJob "a cat" [])) ∧
    (AIVideo.markProcessing "damo"
      (AIVideo.pendingJob "a cat" [])).model_used = none ∧
    (AIVideo.jobResult "damo" AIVideo.exOracle (AIVideo.pendingJob "a cat" [])
      (AIVideo.markProcessing "damo"
        (AIVideo.pendingJob "a cat" []))).model_used = some "damo" := by
  have h := c7_claim_update_fields "damo" AIVideo.exStore AIVideo.exOracle []
    "j1" (AIVideo.pendingJob "a cat" []) (by decide) rfl
  exact ⟨h.1, h.2.1, h.2.2.2.2.1, (h.2.2.2.2.2 "cloud_outputs/j1.mp4" rfl).1⟩

namespace AIVideo

/-! ## Job Store submit/status — src/firebase_utils.py -/

/-- The three-field record view the REST status path decodes
(firebase_utils.py lines 221–226). -/
structure RestJobFields where
  status : Option JStatus
  video_url : Option String
  error : Option String
deriving DecidableEq

/-- Outcome of every external call one submit or status check can make.
`db` is the `init_firebase()` result (a client or `None`); `sdkAdd` and
`sdkGet` the primary-SDK write and read (an exception, or the assigned
document id / the optionally-existing document); `restCreds` the
credential minting of the REST path (reading the service key file and
refreshing an access token); `restAddResp` / `restGetResp` the HTTP
status code and body of the REST write and read. -/
structure FirebaseWorld where
  db : Option Unit
  sdkAdd : Except String String
  sdkGet : Except String (Option Job)
  restCreds : Except String String
  restAddResp : Nat × String
  restGetResp : Nat × RestJobFields

/-- Characters up to the first slash. -/
def takeUntilSlash : List Char → List Char
  | [] => []
  | c :: cs => if c = '/' then [] else c :: takeUntilSlash cs

/-- The id extraction `resp.json()["name"].split("/")[-1]` (firebase_utils.py line 154):
the substring after the last slash. -/
def lastSegment (s : String) : String :=
  ⟨(takeUntilSlash s.data.reverse).reverse⟩

/-- The submit result dictionary. -/
structure SubmitResult where
  success : Bool
  job_id : Option String
  message : String
deriving DecidableEq

/-- Embedding of `submit_job_via_rest` (firebase_utils.py lines 95–160): mint fresh
credentials, POST the document; 200 yields success with the id taken
from the returned document name; any other status or an exception is a
non-fatal failure result. -/
def submit_job_via_rest (w : FirebaseWorld) : SubmitResult :=
  match w.restCreds with
  | .error e =>
      { success := false, job_id := none,
        message := "REST Connection Failed: " ++ e }
  | .ok _token =>
      if w.restAddResp.1 = 200 then
        { success := true, job_id := some (lastSegment w.restAddResp.2),
          message := "Job queued via HTTP (Firewall Bypass)!" }
      else
        { success := false, job_id := none,
          message := "REST Error " ++ toString w.restAddResp.1 ++ ": " ++
            w.restAddResp.2 }

/-- Embedding of `submit_job_to_cloud` (firebase_utils.py lines 59–93), paired with
the number of REST fallback attempts made: no client is a plain failure
(no fallback); a primary-SDK success returns the assigned id; a
primary-SDK exception triggers exactly one REST fallback attempt. -/
def submit_job_to_cloud (w : FirebaseWorld) : SubmitResult × Nat :=
  match w.db with
  | none =>
      ({ success := false, job_id := none,
         message := "Firebase not configured. Missing serviceAccountKey.json." }, 0)
  | some _ =>
      match w.sdkAdd with
      | .ok docId =>
          ({ success := true, job_id := some docId,
             message := "Job queued successfully!" }, 0)
      | .error _ => (submit_job_via_rest w, 1)

/-- A status result, tagged by the path that produced it. -/
inductive StatusResult where
  | fromSdk (j : Job)
  | fromRest (v : RestJobFields)
deriving DecidableEq

/-- Embedding of `get_job_status_via_rest` (firebase_utils.py lines 178–233): mint
fresh credentials, GET the document; non-200 or an exception yields
`none`. -/
def get_job_status_via_rest (w : FirebaseWorld) : Option StatusResult :=
  match w.restCreds with
  | .error _ => none
  | .ok _token =>
      if w.restGetResp.1 = 200 then some (.fromRest w.restGetResp.2) else none

/-- Embedding of `get_job_status` (firebase_utils.py lines 162–176), paired with the
number of REST fallback attempts: the SDK path answers only when a
client exists, the read does not raise, and the document exists; every
other case falls back to exactly one REST attempt. -/
def get_job_status (w : FirebaseWorld) : Option StatusResult × Nat :=
  match w.db with
  | some _ =>
      match w.sdkGet with
      | .ok (some j) => (some (.fromSdk j), 0)
      | .ok none => (get_job_status_via_rest w, 1)
      | .error _ => (get_job_status_via_rest w, 1)
  | none => (get_job_status_via_rest w, 1)

/-- World where the primary transport is unreachable but REST works:
the SDK write raises and the REST write succeeds. -/
def wPrimaryDown : FirebaseWorld :=
  { db := some ()
    sdkAdd := .error "grpc unreachable"
    sdkGet := .error "grpc unreachable"
    restCreds := .ok "token"
    restAddResp :=
      (200, "projects/p/databases/(default)/documents/video_queue/abc123")
    restGetResp := (200, { status := some .pending, video_url := none, error := none }) }

/-- World where both the primary transport and the REST fallback fail. -/
def wAllDown : FirebaseWorld :=
  { db := some ()
    sdkAdd := .error "grpc unreachable"
    sdkGet := .error "grpc unreachable"
    restCreds := .error "file not found"
    restAddResp := (0, "")
    restGetResp := (0, { status := none, video_url := none, error := none }) }

/-- World where the primary transport works. -/
def wPrimaryUp : FirebaseWorld :=
  { db := some ()
    sdkAdd := .ok "abc123"
    sdkGet := .ok (some (pendingJob "a cat" []))
    restCreds := .ok "token"
    restAddResp := (200, "projects/p/databases/(default)/documents/video_queue/abc123")
    restGetResp := (200, { status := some .pending, video_url := none, error := none }) }

end AIVideo

/-- C4: a failure of the primary SDK transport triggers exactly one REST
fallback attempt for both operations; when only the primary transport is
unreachable, `createJob` still succeeds via REST and returns a non-empty
job id; a failure of the fallback itself is surfaced as a non-fatal
result (`success=False` with a message for submit, `None` for status);
and a primary-path success makes no fallback attempt. -/
theorem c4_rest_fallback
    (w1 w2 w3 w4 : AIVideo.FirebaseWorld)
    (e1 tok1 e2 e3 d4 : String)
    (h1db : w1.db = some ()) (h1add : w1.sdkAdd = .error e1)
    (h1creds : w1.restCreds = .ok tok1) (h1status : w1.restAddResp.1 = 200)
    (h1name : AIVideo.lastSegment w1.restAddResp.2 ≠ "")
    (h2db : w2.db = some ()) (h2add : w2.sdkAdd = .error e2)
    (h2rest : AIVideo.exceptFailed w2.restCreds = true ∨ w2.restAddResp.1 ≠ 200)
    (h3db : w3.db = some ()) (h3get : w3.sdkGet = .error e3)
    (h3rest : AIVideo.exceptFailed w3.restCreds = true ∨ w3.restGetResp.1 ≠ 200)
    (h4db : w4.db = some ()) (h4add : w4.sdkAdd = .ok d4) :
    ((AIVideo.submit_job_to_cloud w1).2 = 1 ∧
     (AIVideo.submit_job_to_cloud w1).1.success = true ∧
     (AIVideo.submit_job_to_cloud w1).1.job_id =
       some (AIVideo.lastSegment w1.restAddResp.2) ∧
     AIVideo.lastSegment w1.restAddResp.2 ≠ "") ∧
    ((AIVideo.submit_job_to_cloud w2).2 = 1 ∧
     (AIVideo.submit_job_to_cloud w2).1.success = false) ∧
    ((AIVideo.get_job_status w3).2 = 1 ∧
     (AIVideo.get_job_status w3).1 = none) ∧
    ((AIVideo.submit_job_to_cloud w4).2 = 0 ∧
     (AIVideo.submit_job_to_cloud w4).1.success = true ∧
     (AIVideo.submit_job_to_cloud w4).1.job_id = some d4) := by
  refine ⟨?_, ?_, ?_, ?_⟩
  · simp [AIVideo.submit_job_to_cloud, AIVideo.submit_job_via_rest,
      h1db, h1add, h1creds, h1status, h1name]
  · cases hc : w2.restCreds with
    | error e =>
        simp [AIVideo.submit_job_to_cloud, AIVideo.submit_job_via_rest,
          h2db, h2add, hc]
    | ok tok =>
        have hne : w2.restAddResp.1 ≠ 200 := by
          rcases h2rest with h | h
          · rw [hc] at h; cases h
          · exact h
        simp [AIVideo.submit_job_to_cloud, AIVideo.submit_job_via_rest,
          h2db, h2add, hc, hne]
  · cases hc : w3.restCreds with
    | error e =>
        simp [AIVideo.get_job_status, AIVideo.get_job_status_via_rest,
          h3db, h3get, hc]
    | ok tok =>
        have hne : w3.restGetResp.1 ≠ 200 := by
          rcases h3rest with h | h
          · rw [hc] at h; cases h
          · exact h
        simp [AIVideo.get_job_status, AIVideo.get_job_status_via_rest,
          h3db, h3get, hc, hne]
  · simp [AIVideo.submit_job_to_cloud, h4db, h4add]

/-- C4 witness: on concrete worlds — primary down with REST up, both
down, and primary up — the submit and status operations behave as the
fallback contract says. -/
theorem c4_rest_fallback_witness :
    ((AIVideo.submit_job_to_cloud AIVideo.wPrimaryDown).2 = 1 ∧
     (AIVideo.submit_job_to_cloud AIVideo.wPrimaryDown).1.success = true ∧
     (AIVideo.submit_job_to_cloud AIVideo.wPrimaryDown).1.job_id =
       some (AIVideo.lastSegment AIVideo.wPrimaryDown.restAddResp.2) ∧
     AIVideo.lastSegment AIVideo.wPrimaryDown.restAddResp.2 ≠ "") ∧
    ((AIVideo.submit_job_to_cloud AIVideo.wAllDown).2 = 1 ∧
     (AIVideo.submit_job_to_cloud AIVideo.wAllDown).1.success = false) ∧
    ((AIVideo.get_job_status AIVideo.wAllDown).2 = 1 ∧
     (AIVideo.get_job_status AIVideo.wAllDown).1 = none) ∧
    ((AIVideo.submit_job_to_cloud AIVideo.wPrimaryUp).2 = 0 ∧
     (AIVideo.submit_job_to_cloud AIVideo.wPrimaryUp).1.success = true ∧
     (AIVideo.submit_job_to_cloud AIVideo.wPrimaryUp).1.job_id = some "abc123") :=
  c4_rest_fallback AIVideo.wPrimaryDown AIVideo.wAllDown AIVideo.wAllDown
    AIVideo.wPrimaryUp
    "grpc unreachable" "token" "grpc unreachable" "grpc unreachable" "abc123"
    rfl rfl rfl rfl (by decide) rfl rfl (Or.inl rfl) rfl rfl (Or.inl rfl)
    rfl rfl

namespace AIVideo

/-! ## JSON serialisation of the settings snapshot — the
`json.dumps` / `json.loads` pair used by src/csv_storage.py.

The value domain is the scalar settings dictionary (`SettingsDict`).
Escaping covers the printable range, the two-character shorthand escapes
and `\uXXXX` for other code points of the basic multilingual plane, as
CPython's `json` with `ensure_ascii=True` produces them. -/

/-- The double-quote character. -/
def qc : Char := Char.ofNat 34

/-- The backslash character. -/
def bsc : Char := Char.ofNat 92

/-- The opening-brace character. -/
def obr : Char := Char.ofNat 123

/-- The closing-brace character. -/
def cbr : Char := Char.ofNat 125

/-- Lower-case hexadecimal digit. -/
def hexDigitChar (n : Nat) : Char :=
  if n < 10 then Char.ofNat (48 + n) else Char.ofNat (87 + n)

/-- Four-digit hexadecimal rendering of a code point. -/
def hex4 (n : Nat) : List Char :=
  [hexDigitChar (n / 4096 % 16), hexDigitChar (n / 256 % 16),
   hexDigitChar (n / 16 % 16), hexDigitChar (n % 16)]

/-- JSON escaping of one character. -/
def escapeChar (c : Char) : List Char :=
  if c = qc then [bsc, qc]
  else if c = bsc then [bsc, bsc]
  else if c = Char.ofNat 10 then [bsc, 'n']
  else if c = Char.ofNat 9 then [bsc, 't']
  else if c = Char.ofNat 13 then [bsc, 'r']
  else if c = Char.ofNat 8 then [bsc, 'b']
  else if c = Char.ofNat 12 then [bsc, 'f']
  else if 32 ≤ c.toNat ∧ c.toNat ≤ 126 then [c]
  else bsc :: 'u' :: hex4 c.toNat

/-- JSON escaping of a character sequence. -/
def escapeChars : List Char → List Char
  | [] => []
  | c :: cs => escapeChar c ++ escapeChars cs

/-- A JSON string literal. -/
def dumpStringChars (s : String) : List Char :=
  qc :: (escapeChars s.data ++ [qc])

/-- Decimal digit character. -/
def digitCh (n : Nat) : Char := Char.ofNat (48 + n)

/-- Decimal rendering of a natural number. -/
def natChars (n : Nat) : List Char :=
  if _h : n < 10 then [digitCh n]
  else natChars (n / 10) ++ [digitCh (n % 10)]
termination_by n
decreasing_by exact Nat.div_lt_self (by omega) (by omega)

/-- Decimal rendering of an integer (Python `repr` of an int). -/
def intChars (i : Int) : List Char :=
  if i < 0 then '-' :: natChars i.natAbs else natChars i.natAbs

/-- JSON rendering of one scalar value. -/
def dumpSVal : SVal → List Char
  | .s v => dumpStringChars v
  | .i v => intChars v
  | .b true => ['t', 'r', 'u', 'e']
  | .b false => ['f', 'a', 'l', 's', 'e']

/-- JSON rendering of the dictionary entries, with the CPython default
separators `", "` and `": "`. -/
def dumpEntries : SettingsDict → List Char
  | [] => []
  | [(k, v)] => dumpStringChars k ++ ':' :: ' ' :: dumpSVal v
  | (k, v) :: rest =>
      dumpStringChars k ++ ':' :: ' ' :: dumpSVal v ++ ',' :: ' ' ::
        dumpEntries rest

/-- The dump `json.dumps(settings)` for the scalar settings dictionary. -/
def jsonDumps (d : SettingsDict) : String := ⟨obr :: (dumpEntries d ++ [cbr])⟩

/-- Decimal digit test. -/
def isDigitCh (c : Char) : Bool := decide (48 ≤ c.toNat ∧ c.toNat ≤ 57)

/-- Hexadecimal digit value. -/
def hexVal (c : Char) : Option Nat :=
  if 48 ≤ c.toNat ∧ c.toNat ≤ 57 then some (c.toNat - 48)
  else if 97 ≤ c.toNat ∧ c.toNat ≤ 102 then some (c.toNat - 87)
  else if 65 ≤ c.toNat ∧ c.toNat ≤ 70 then some (c.toNat - 55)
  else none

/-- Parse the body of a JSON string literal (the opening quote already
consumed) up to its closing quote.  `fuel` bounds the recursion depth;
one unit is spent per produced character. -/
def parseStrChars : Nat → List Char → Option (List Char × List Char)
  | 0, _ => none
  | _ + 1, [] => none
  | fuel + 1, c :: cs =>
      if c = qc then some ([], cs)
      else if c = bsc then
        match cs with
        | [] => none
        | e :: cs2 =>
            if e = qc then (parseStrChars fuel cs2).map (fun p => (qc :: p.1, p.2))
            else if e = bsc then
              (parseStrChars fuel cs2).map (fun p => (bsc :: p.1, p.2))
            else if e = '/' then
              (parseStrChars fuel cs2).map (fun p => ('/' :: p.1, p.2))
            else if e = 'n' then
              (parseStrChars fuel cs2).map (fun p => (Char.ofNat 10 :: p.1, p.2))
            else if e = 't' then
              (parseStrChars fuel cs2).map (fun p => (Char.ofNat 9 :: p.1, p.2))
            else if e = 'r' then
              (parseStrChars fuel cs2).map (fun p => (Char.ofNat 13 :: p.1, p.2))
            else if e = 'b' then
              (parseStrChars fuel cs2).map (fun p => (Char.ofNat 8 :: p.1, p.2))
            else if e = 'f' then
              (parseStrChars fuel cs2).map (fun p => (Char.ofNat 12 :: p.1, p.2))
            else if e = 'u' then
              match cs2 with
              | h1 :: h2 :: h3 :: h4 :: cs3 =>
                  match hexVal h1, hexVal h2, hexVal h3, hexVal h4 with
                  | some a, some b, some c2, some d =>
                      (parseStrChars fuel cs3).map
                        (fun p =>
                          (Char.ofNat (a * 4096 + b * 256 + c2 * 16 + d) :: p.1,
                           p.2))
                  | _, _, _, _ => none
              | _ => none
            else none
      else (parseStrChars fuel cs).map (fun p => (c :: p.1, p.2))

/-- Consume a run of decimal digits, accumulating their value. -/
def parseDigits : List Char → Nat → Nat × List Char
  | [], acc => (acc, [])
  | c :: cs, acc =>
      if isDigitCh c then parseDigits cs (acc * 10 + (c.toNat - 48))
      else (acc, c :: cs)

/-- Parse a JSON integer (optional minus sign, digit run). -/
def parseIntChars : List Char → Option (Int × List Char)
  | [] => none
  | c :: cs =>
      if c = '-' then
        match cs with
        | [] => none
        | d :: ds =>
            if isDigitCh d then
              some (-(Int.ofNat (parseDigits (d :: ds) 0).1),
                (parseDigits (d :: ds) 0).2)
            else none
      else if isDigitCh c then
        some (Int.ofNat (parseDigits (c :: cs) 0).1, (parseDigits (c :: cs) 0).2)
      else none

/-- Parse one scalar JSON value. -/
def parseSVal (fuel : Nat) : List Char → Option (SVal × List Char)
  | [] => none
  | c :: cs =>
      if c = qc then (parseStrChars fuel cs).map (fun p => (SVal.s ⟨p.1⟩, p.2))
      else if c = 't' then
        match cs with
        | 'r' :: 'u' :: 'e' :: rest => some (.b true, rest)
        | _ => none
      else if c = 'f' then
        match cs with
        | 'a' :: 'l' :: 's' :: 'e' :: rest => some (.b false, rest)
        | _ => none
      else
        match parseIntChars (c :: cs) with
        | some (i, rest) => some (.i i, rest)
        | none => none

/-- JSON whitespace test. -/
def isWs (c : Char) : Bool :=
  decide (c = ' ' ∨ c = Char.ofNat 9 ∨ c = Char.ofNat 10 ∨ c = Char.ofNat 13)

/-- Drop leading JSON whitespace. -/
def skipWs : List Char → List Char
  | [] => []
  | c :: cs => if isWs c then skipWs cs else c :: cs

/-- Parse the entries of a non-empty JSON object, positioned at the
first key; consumes the closing brace.  `fuel` bounds the number of
entries. -/
def parseEntries : Nat → List Char → Option (SettingsDict × List Char)
  | 0, _ => none
  | _ + 1, [] => none
  | fuel + 1, c :: cs =>
      if c = qc then
        match parseStrChars (cs.length + 1) cs with
        | none => none
        | some (key, rest1) =>
            match skipWs rest1 with
            | [] => none
            | c2 :: rest2 =>
                if c2 = ':' then
                  match parseSVal ((skipWs rest2).length + 1) (skipWs rest2) with
                  | none => none
                  | some (v, rest3) =>
                      match skipWs rest3 with
                      | [] => none
                      | c3 :: rest4 =>
                          if c3 = ',' then
                            match parseEntries fuel (skipWs rest4) with
                            | some (entries, rest5) =>
                                some ((⟨key⟩, v) :: entries, rest5)
                            | none => none
                          else if c3 = cbr then some ([(⟨key⟩, v)], rest4)
                          else none
                else none
      else none

/-- The load `json.loads` on an object of scalar values: the whole input must be
one object with nothing but whitespace around it. -/
def jsonLoads (s : String) : Option SettingsDict :=
  match skipWs s.data with
  | [] => none
  | c :: cs =>
      if c = obr then
        match skipWs cs with
        | [] => none
        | c2 :: rest =>
            if c2 = cbr then (if skipWs rest = [] then some [] else none)
            else
              match parseEntries (s.data.length + 1) (c2 :: rest) with
              | some (entries, rest2) =>
                  if skipWs rest2 = [] then some entries else none
              | none => none
      else none

/-- A character in the plain printable range. -/
def PrintableChar (c : Char) : Prop := 32 ≤ c.toNat ∧ c.toNat ≤ 126

/-- All characters of a string printable. -/
def printableString (s : String) : Bool :=
  s.data.all (fun c => decide (32 ≤ c.toNat ∧ c.toNat ≤ 126))

/-- Scalar value with printable string content. -/
def printableVal : SVal → Bool
  | .s v => printableString v
  | _ => true

/-- Settings dictionary with printable keys and string values. -/
def printableSettings (d : SettingsDict) : Bool :=
  d.all (fun p => printableString p.1 && printableVal p.2)

end AIVideo

namespace AIVideo

/-- A printable character is none of the control characters the escaper
special-cases. -/
theorem printable_ne_ctrl {c : Char} (hp : PrintableChar c) {n : Nat}
    (hn : n < 32) (hv : (Char.ofNat n).toNat = n) : c ≠ Char.ofNat n := by
  intro hc
  have h1 := hp.1
  rw [hc, hv] at h1
  omega

/-- Escaping a plain printable character is the identity. -/
theorem escapeChar_plain {c : Char} (hp : PrintableChar c) (h1 : c ≠ qc)
    (h2 : c ≠ bsc) : escapeChar c = [c] := by
  unfold escapeChar
  rw [if_neg h1, if_neg h2,
    if_neg (printable_ne_ctrl hp (by omega) (by decide)),
    if_neg (printable_ne_ctrl hp (by omega) (by decide)),
    if_neg (printable_ne_ctrl hp (by omega) (by decide)),
    if_neg (printable_ne_ctrl hp (by omega) (by decide)),
    if_neg (printable_ne_ctrl hp (by omega) (by decide))]
  exact if_pos ⟨hp.1, hp.2⟩

/-- The double quote escapes to backslash-quote. -/
theorem escapeChar_qc : escapeChar qc = [bsc, qc] := by decide

/-- The backslash escapes to a doubled backslash. -/
theorem escapeChar_bsc : escapeChar bsc = [bsc, bsc] := by decide

/-- Parsing undoes escaping: for printable content, the string-body
parser returns exactly the original characters and the input after the
closing quote. -/
theorem parseStrChars_escape :
    ∀ (s : List Char), (∀ c ∈ s, PrintableChar c) →
      ∀ (fuel : Nat) (rest : List Char), s.length + 1 ≤ fuel →
        parseStrChars fuel (escapeChars s ++ qc :: rest) = some (s, rest) := by
  intro s
  induction s with
  | nil =>
      intro _ fuel rest hf
      obtain ⟨f, rfl⟩ : ∃ f, fuel = f + 1 := ⟨fuel - 1, by omega⟩
      simp [escapeChars, parseStrChars]
  | cons c cs ih =>
      intro hp fuel rest hf
      obtain ⟨f, rfl⟩ : ∃ f, fuel = f + 1 := ⟨fuel - 1, by omega⟩
      have hpc : PrintableChar c := hp c (List.mem_cons_self c cs)
      have hps : ∀ x ∈ cs, PrintableChar x :=
        fun x hx => hp x (List.mem_cons_of_mem c hx)
      have hih := ih hps f rest (by
        simp only [List.length_cons] at hf; omega)
      by_cases h1 : c = qc
      · subst h1
        rw [show escapeChars (qc :: cs) = bsc :: qc :: escapeChars cs from by
          rw [escapeChars, escapeChar_qc]; rfl]
        simp +decide [parseStrChars, hih]
      · by_cases h2 : c = bsc
        · subst h2
          rw [show escapeChars (bsc :: cs) = bsc :: bsc :: escapeChars cs from by
            rw [escapeChars, escapeChar_bsc]; rfl]
          simp +decide [parseStrChars, hih]
        · rw [show escapeChars (c :: cs) = c :: escapeChars cs from by
            rw [escapeChars, escapeChar_plain hpc h1 h2]; rfl]
          simp [parseStrChars, h1, h2, hih]

end AIVideo

namespace AIVideo

/-- The value `10^(number of decimal digits of n)`, by the recursion of
`natChars`. -/
def pow10 (n : Nat) : Nat :=
  if _h : n < 10 then 10 else pow10 (n / 10) * 10
termination_by n
decreasing_by exact Nat.div_lt_self (by omega) (by omega)

/-- A decimal digit character is a digit and decodes to its value. -/
theorem digitCh_spec (n : Nat) (h : n < 10) :
    isDigitCh (digitCh n) = true ∧ (digitCh n).toNat - 48 = n := by
  interval_cases n <;> exact ⟨by decide, by decide⟩

/-- Every character of a decimal rendering is a digit. -/
theorem natChars_digits :
    ∀ (n : Nat), ∀ c ∈ natChars n, isDigitCh c = true := by
  intro n
  induction n using Nat.strong_induction_on with
  | _ n ih =>
      intro c hc
      by_cases h : n < 10
      · rw [natChars, dif_pos h] at hc
        rcases List.mem_singleton.mp hc with rfl
        exact (digitCh_spec n h).1
      · rw [natChars, dif_neg h] at hc
        rcases List.mem_append.mp hc with hc1 | hc2
        · exact ih (n / 10) (Nat.div_lt_self (by omega) (by omega)) c hc1
        · rcases List.mem_singleton.mp hc2 with rfl
          exact (digitCh_spec (n % 10) (Nat.mod_lt n (by omega))).1

/-- A decimal rendering is never empty. -/
theorem natChars_ne_nil (n : Nat) : natChars n ≠ [] := by
  by_cases h : n < 10
  · rw [natChars, dif_pos h]; simp
  · rw [natChars, dif_neg h]; simp

/-- The digit-run parser consumes a decimal rendering and accumulates
its value. -/
theorem parseDigits_natChars :
    ∀ (n : Nat) (rest : List Char) (acc : Nat),
      parseDigits (natChars n ++ rest) acc =
        parseDigits rest (acc * pow10 n + n) := by
  intro n
  induction n using Nat.strong_induction_on with
  | _ n ih =>
      intro rest acc
      by_cases h : n < 10
      · rw [natChars, dif_pos h, pow10, dif_pos h]
        obtain ⟨hd, hv⟩ := digitCh_spec n h
        simp only [List.cons_append, List.nil_append, parseDigits, hd, if_true, hv]
        rfl
      · rw [natChars, dif_neg h, pow10, dif_neg h, List.append_assoc,
          List.cons_append, List.nil_append,
          ih (n / 10) (Nat.div_lt_self (by omega) (by omega))]
        obtain ⟨hd, hv⟩ := digitCh_spec (n % 10) (Nat.mod_lt n (by omega))
        simp only [parseDigits, hd, if_true]
        have hdm := Nat.div_add_mod n 10
        rw [← Nat.mul_assoc]
        congr 1
        generalize acc * pow10 (n / 10) = X
        omega

/-- The first character of a list is not a digit. -/
def headNotDigit : List Char → Prop
  | [] => True
  | c :: _ => isDigitCh c = false

/-- The digit-run parser stops at a non-digit. -/
theorem parseDigits_stop (rest : List Char) (acc : Nat)
    (h : headNotDigit rest) : parseDigits rest acc = (acc, rest) := by
  cases rest with
  | nil => rfl
  | cons c cs =>
      have hc : isDigitCh c = false := h
      simp [parseDigits, hc]

/-- A digit character is not a minus sign, quote, `t` or `f`. -/
theorem digit_ne {c : Char} (h : isDigitCh c = true) :
    c ≠ '-' ∧ c ≠ qc ∧ c ≠ 't' ∧ c ≠ 'f' := by
  have hb : 48 ≤ c.toNat ∧ c.toNat ≤ 57 := by
    simpa [isDigitCh] using h
  refine ⟨?_, ?_, ?_, ?_⟩ <;>
    (intro hc; rw [hc] at hb; revert hb; decide)

/-- The integer parser undoes the decimal rendering when the remaining
input does not begin with a digit. -/
theorem parseIntChars_intChars (i : Int) (rest : List Char)
    (h : headNotDigit rest) : parseIntChars (intChars i ++ rest) = some (i, rest) := by
  have hnat : ∀ (n : Nat), parseDigits (natChars n ++ rest) 0 = (n, rest) := by
    intro n
    rw [parseDigits_natChars n rest 0, Nat.zero_mul, Nat.zero_add,
      parseDigits_stop rest n h]
  cases i with
  | ofNat n =>
      have hneg : ¬((Int.ofNat n) < 0) :=
        not_lt.mpr (Int.ofNat_zero_le n)
      rw [intChars, if_neg hneg]
      cases hnc : natChars (Int.ofNat n).natAbs with
      | nil => exact absurd hnc (natChars_ne_nil _)
      | cons d ds =>
          have hd : isDigitCh d = true :=
            natChars_digits _ d (by rw [hnc]; exact List.mem_cons_self d ds)
          have habs : (Int.ofNat n).natAbs = n := rfl
          have hpd : parseDigits (d :: (ds ++ rest)) 0 = (n, rest) := by
            rw [← List.cons_append, ← hnc, habs]
            exact hnat n
          rw [List.cons_append]
          simp only [parseIntChars]
          rw [if_neg (digit_ne hd).1, if_pos hd, hpd]
  | negSucc n =>
      have hneg : (Int.negSucc n) < 0 := Int.negSucc_lt_zero n
      rw [intChars, if_pos hneg]
      cases hnc : natChars (Int.negSucc n).natAbs with
      | nil => exact absurd hnc (natChars_ne_nil _)
      | cons d ds =>
          have hd : isDigitCh d = true :=
            natChars_digits _ d (by rw [hnc]; exact List.mem_cons_self d ds)
          have hpd : parseDigits (d :: (ds ++ rest)) 0 =
              ((Int.negSucc n).natAbs, rest) := by
            rw [← List.cons_append, ← hnc]
            exact hnat _
          have hval : -(Int.ofNat ((Int.negSucc n).natAbs)) = Int.negSucc n := by
            rw [show (Int.negSucc n).natAbs = n + 1 from rfl, Int.negSucc_eq]
            rfl
          rw [List.cons_append, List.cons_append]
          simp only [parseIntChars]
          rw [if_pos hd, hpd, hval]
          simp

end AIVideo

namespace AIVideo

/-- An integer rendering is never empty. -/
theorem intChars_ne_nil (i : Int) : intChars i ≠ [] := by
  unfold intChars
  split
  · simp
  · exact natChars_ne_nil _

/-- An integer rendering starts with a minus sign or a digit. -/
theorem intChars_head (i : Int) (d : Char) (ds : List Char)
    (h : intChars i = d :: ds) : d = '-' ∨ isDigitCh d = true := by
  unfold intChars at h
  split at h
  · left
    injection h with h1 _
    exact h1.symm
  · right
    refine natChars_digits i.natAbs d ?_
    rw [h]
    exact List.mem_cons_self d ds

/-- A character that is not space, tab, linefeed or carriage return is
not JSON whitespace. -/
theorem isWs_false_of_toNat {c : Char} (h32 : c.toNat ≠ 32) (h9 : c.toNat ≠ 9)
    (h10 : c.toNat ≠ 10) (h13 : c.toNat ≠ 13) : isWs c = false := by
  have hn : ¬(c = ' ' ∨ c = Char.ofNat 9 ∨ c = Char.ofNat 10 ∨ c = Char.ofNat 13) := by
    rintro (rfl | rfl | rfl | rfl) <;> simp_all
  simpa [isWs] using hn

/-- Fuel needed by the scalar-value parser. -/
def svalFuelNeed : SVal → Nat
  | .s v => v.data.length + 1
  | _ => 0

/-- Parsing undoes the scalar-value rendering, for printable string
content and a continuation that does not begin with a digit. -/
theorem parseSVal_dump (v : SVal) (hp : printableVal v = true) (fuel : Nat)
    (rest : List Char) (hf : svalFuelNeed v ≤ fuel) (hrest : headNotDigit rest) :
    parseSVal fuel (dumpSVal v ++ rest) = some (v, rest) := by
  cases v with
  | s str =>
      have hps : ∀ c ∈ str.data, PrintableChar c := by
        intro c hc
        simp only [printableVal, printableString, List.all_eq_true] at hp
        simpa [PrintableChar] using hp c hc
      show parseSVal fuel ((qc :: (escapeChars str.data ++ [qc])) ++ rest) = _
      rw [List.cons_append, List.append_assoc]
      simp only [parseSVal, if_pos rfl]
      rw [show ([qc] ++ rest : List Char) = qc :: rest from rfl,
        parseStrChars_escape str.data hps fuel rest (by simpa [svalFuelNeed] using hf)]
      rfl
  | i iv =>
      cases hic : intChars iv with
      | nil => exact absurd hic (intChars_ne_nil iv)
      | cons d ds =>
          have hdh := intChars_head iv d ds hic
          have hne : d ≠ qc ∧ d ≠ 't' ∧ d ≠ 'f' := by
            rcases hdh with rfl | hd
            · exact ⟨by decide, by decide, by decide⟩
            · exact ⟨(digit_ne hd).2.1, (digit_ne hd).2.2.1, (digit_ne hd).2.2.2⟩
          show parseSVal fuel (intChars iv ++ rest) = _
          rw [hic, List.cons_append]
          simp only [parseSVal]
          rw [if_neg hne.1, if_neg hne.2.1, if_neg hne.2.2,
            show (d :: (ds ++ rest) : List Char) = (d :: ds) ++ rest from rfl,
            ← hic, parseIntChars_intChars iv rest hrest]
  | b bv =>
      cases bv with
      | true =>
          show parseSVal fuel (('t' :: 'r' :: 'u' :: 'e' :: []) ++ rest) = _
          rw [List.cons_append, List.cons_append, List.cons_append,
            List.cons_append, List.nil_append]
          rfl
      | false =>
          show parseSVal fuel (('f' :: 'a' :: 'l' :: 's' :: 'e' :: []) ++ rest) = _
          rw [List.cons_append, List.cons_append, List.cons_append,
            List.cons_append, List.cons_append, List.nil_append]
          rfl

end AIVideo

namespace AIVideo

/-- Unpack the boolean printability of a string. -/
theorem printableString_chars {s : String} (h : printableString s = true) :
    ∀ c ∈ s.data, PrintableChar c := by
  intro c hc
  simp only [printableString, List.all_eq_true] at h
  simpa [PrintableChar] using h c hc

/-- The function `skipWs` does not move past a non-whitespace character. -/
theorem skipWs_cons_of_not_ws {c : Char} (l : List Char) (h : isWs c = false) :
    skipWs (c :: l) = c :: l := by
  simp [skipWs, h]

/-- The function `skipWs` drops a leading space. -/
theorem skipWs_space (l : List Char) : skipWs (' ' :: l) = skipWs l := by
  simp [skipWs, show isWs ' ' = true from by decide]

/-- Escaping never shrinks a character. -/
theorem escapeChar_len_pos (c : Char) : 1 ≤ (escapeChar c).length := by
  unfold escapeChar
  repeat' split
  all_goals simp [hex4]

/-- Escaping never shrinks a string. -/
theorem escapeChars_len_ge : ∀ (s : List Char), s.length ≤ (escapeChars s).length := by
  intro s
  induction s with
  | nil => simp [escapeChars]
  | cons c cs ih =>
      have := escapeChar_len_pos c
      simp only [escapeChars, List.length_append, List.length_cons]
      omega

/-- The scalar-value parser's fuel need is at most the rendering's
length. -/
theorem svalFuelNeed_le_dump (v : SVal) : svalFuelNeed v ≤ (dumpSVal v).length + 1 := by
  cases v with
  | s str =>
      have := escapeChars_len_ge str.data
      simp only [svalFuelNeed, dumpSVal, dumpStringChars, List.length_cons,
        List.length_append]
      omega
  | i iv => simp [svalFuelNeed]
  | b bv => simp [svalFuelNeed]

/-- The rendering of a scalar value starts with a non-whitespace,
non-digit-run-confusable character. -/
theorem dumpSVal_head (v : SVal) :
    ∃ d ds, dumpSVal v = d :: ds ∧ isWs d = false := by
  cases v with
  | s str =>
      exact ⟨qc, escapeChars str.data ++ [qc], rfl, by decide⟩
  | i iv =>
      cases hic : intChars iv with
      | nil => exact absurd hic (intChars_ne_nil iv)
      | cons d ds =>
          refine ⟨d, ds, hic, ?_⟩
          rcases intChars_head iv d ds hic with rfl | hd
          · decide
          · have hb : 48 ≤ d.toNat ∧ d.toNat ≤ 57 := by simpa [isDigitCh] using hd
            exact isWs_false_of_toNat (by omega) (by omega) (by omega) (by omega)
  | b bv => cases bv <;> exact ⟨_, _, rfl, by decide⟩

/-- The function `skipWs` is the identity on a value rendering followed by anything. -/
theorem skipWs_dumpSVal (v : SVal) (l : List Char) :
    skipWs (dumpSVal v ++ l) = dumpSVal v ++ l := by
  obtain ⟨d, ds, hd, hw⟩ := dumpSVal_head v
  rw [hd, List.cons_append]
  exact skipWs_cons_of_not_ws _ hw

end AIVideo

namespace AIVideo

/-- A non-empty entries rendering starts with the quote of its first
key. -/
theorem dumpEntries_cons_head (k : String) (v : SVal) (tl : SettingsDict) :
    ∃ t, dumpEntries ((k, v) :: tl) = qc :: t := by
  cases tl with
  | nil =>
      exact ⟨(escapeChars k.data ++ [qc]) ++ ':' :: ' ' :: dumpSVal v, rfl⟩
  | cons e es =>
      exact ⟨(escapeChars k.data ++ [qc]) ++ ':' :: ' ' :: dumpSVal v ++
        ',' :: ' ' :: dumpEntries (e :: es), rfl⟩

/-- The function `skipWs` is the identity on a non-empty entries rendering followed
by anything. -/
theorem skipWs_dumpEntries (k : String) (v : SVal) (tl : SettingsDict)
    (l : List Char) :
    skipWs (dumpEntries ((k, v) :: tl) ++ l) = dumpEntries ((k, v) :: tl) ++ l := by
  obtain ⟨t, ht⟩ := dumpEntries_cons_head k v tl
  rw [ht, List.cons_append]
  exact skipWs_cons_of_not_ws _ (by decide)

/-- Parsing undoes the entries rendering of a non-empty printable
dictionary, consuming the closing brace. -/
theorem parseEntries_dump :
    ∀ (d : SettingsDict), d ≠ [] → printableSettings d = true →
      ∀ (fuel : Nat), d.length + 1 ≤ fuel →
        ∀ (rest : List Char),
          parseEntries fuel (dumpEntries d ++ cbr :: rest) = some (d, rest) := by
  intro d
  induction d with
  | nil => intro h; cases h rfl
  | cons kv tail ih =>
      obtain ⟨k, v⟩ := kv
      intro _ hps fuel hf rest
      obtain ⟨f, rfl⟩ : ∃ f, fuel = f + 1 := ⟨fuel - 1, by omega⟩
      have hp2 : (printableString k && printableVal v) = true ∧
          printableSettings tail = true := by
        rw [printableSettings, List.all_cons, Bool.and_eq_true] at hps
        exact hps
      have hp3 : printableString k = true ∧ printableVal v = true ∧
          printableSettings tail = true :=
        ⟨(Bool.and_eq_true _ _ |>.mp hp2.1).1,
         (Bool.and_eq_true _ _ |>.mp hp2.1).2, hp2.2⟩
      cases tail with
      | nil =>
          have hshape : dumpEntries [(k, v)] ++ cbr :: rest =
              qc :: (escapeChars k.data ++
                (qc :: (':' :: ' ' :: (dumpSVal v ++ cbr :: rest)))) := by
            simp [dumpEntries, dumpStringChars]
          rw [hshape]
          simp only [parseEntries]
          rw [if_pos trivial]
          rw [parseStrChars_escape k.data (printableString_chars hp3.1) _
            (':' :: ' ' :: (dumpSVal v ++ cbr :: rest))
            (by
              have := escapeChars_len_ge k.data
              simp only [List.length_append, List.length_cons]
              omega)]
          dsimp only
          rw [skipWs_cons_of_not_ws _ (show isWs ':' = false from by decide)]
          dsimp only
          rw [if_pos rfl]
          rw [show skipWs (' ' :: (dumpSVal v ++ cbr :: rest)) =
              dumpSVal v ++ cbr :: rest from by
            rw [skipWs_space]; exact skipWs_dumpSVal v _]
          rw [parseSVal_dump v hp3.2.1 _ (cbr :: rest)
            (le_trans (svalFuelNeed_le_dump v)
              (by simp only [List.length_append]; omega))
            (show isDigitCh cbr = false from by decide)]
          dsimp only
          rw [skipWs_cons_of_not_ws _ (show isWs cbr = false from by decide)]
          dsimp only
          rw [if_neg (show ¬(cbr = ',') from by decide), if_pos rfl]
      | cons e2 es =>
          have hshape : dumpEntries ((k, v) :: e2 :: es) ++ cbr :: rest =
              qc :: (escapeChars k.data ++
                (qc :: (':' :: ' ' :: (dumpSVal v ++ ',' :: ' ' ::
                  (dumpEntries (e2 :: es) ++ cbr :: rest))))) := by
            simp [dumpEntries, dumpStringChars]
          rw [hshape]
          simp only [parseEntries]
          rw [if_pos trivial]
          rw [parseStrChars_escape k.data (printableString_chars hp3.1) _
            (':' :: ' ' :: (dumpSVal v ++ ',' :: ' ' ::
              (dumpEntries (e2 :: es) ++ cbr :: rest)))
            (by
              have := escapeChars_len_ge k.data
              simp only [List.length_append, List.length_cons]
              omega)]
          dsimp only
          rw [skipWs_cons_of_not_ws _ (show isWs ':' = false from by decide)]
          dsimp only
          rw [if_pos rfl]
          rw [show skipWs (' ' :: (dumpSVal v ++ ',' :: ' ' ::
              (dumpEntries (e2 :: es) ++ cbr :: rest))) =
              dumpSVal v ++ ',' :: ' ' ::
                (dumpEntries (e2 :: es) ++ cbr :: rest) from by
            rw [skipWs_space]; exact skipWs_dumpSVal v _]
          rw [parseSVal_dump v hp3.2.1 _ (',' :: ' ' ::
              (dumpEntries (e2 :: es) ++ cbr :: rest))
            (le_trans (svalFuelNeed_le_dump v)
              (by simp only [List.length_append]; omega))
            (show isDigitCh ',' = false from by decide)]
          dsimp only
          rw [skipWs_cons_of_not_ws _ (show isWs ',' = false from by decide)]
          dsimp only
          rw [if_pos rfl]
          rw [show skipWs (' ' :: (dumpEntries (e2 :: es) ++ cbr :: rest)) =
              dumpEntries (e2 :: es) ++ cbr :: rest from by
            rw [skipWs_space]; exact skipWs_dumpEntries e2.1 e2.2 es _]
          rw [ih (by simp) hp3.2.2 f
            (by simp only [List.length_cons] at hf ⊢; omega) rest]

end AIVideo

namespace AIVideo

/-- An entries rendering is at least as long as its dictionary. -/
theorem dumpEntries_len_ge : ∀ (d : SettingsDict), d.length ≤ (dumpEntries d).length := by
  intro d
  induction d with
  | nil => simp [dumpEntries]
  | cons kv tail ih =>
      obtain ⟨k, v⟩ := kv
      cases tail with
      | nil => simp [dumpEntries, dumpStringChars]
      | cons e es =>
          simp only [dumpEntries, dumpStringChars, List.length_append,
            List.length_cons] at ih ⊢
          omega

/-- The load `json.loads` undoes `json.dumps` on any settings dictionary with
printable keys and string values. -/
theorem jsonLoads_jsonDumps (d : SettingsDict) (hp : printableSettings d = true) :
    jsonLoads (jsonDumps d) = some d := by
  cases d with
  | nil => rfl
  | cons kv tail =>
      obtain ⟨k, v⟩ := kv
      have hlen := dumpEntries_len_ge ((k, v) :: tail)
      unfold jsonLoads jsonDumps
      rw [show (String.mk (obr :: (dumpEntries ((k, v) :: tail) ++ [cbr]))).data
          = obr :: (dumpEntries ((k, v) :: tail) ++ [cbr]) from rfl]
      rw [skipWs_cons_of_not_ws _ (show isWs obr = false from by decide)]
      dsimp only
      rw [if_pos rfl]
      obtain ⟨t, ht⟩ := dumpEntries_cons_head k v tail
      rw [show dumpEntries ((k, v) :: tail) ++ [cbr] = qc :: (t ++ [cbr]) from by
        rw [ht]; rfl]
      rw [skipWs_cons_of_not_ws _ (show isWs qc = false from by decide)]
      dsimp only
      rw [if_neg (show ¬(qc = cbr) from by decide)]
      rw [show (qc :: (t ++ [cbr]) : List Char) =
          dumpEntries ((k, v) :: tail) ++ cbr :: [] from by rw [ht]; rfl]
      rw [parseEntries_dump ((k, v) :: tail) (by simp) hp
        ((obr :: (dumpEntries ((k, v) :: tail) ++ [cbr])).length + 1)
        (by
          simp only [List.length_cons, List.length_append] at hlen ⊢
          omega)
        []]
      rfl

/-! ## CSV metadata store — src/csv_storage.py -/

/-- One row of `outputs/videos.csv` with the fixed header columns
(csv_storage.py line 14); the external `csv` module is modelled as a
faithful field transport, so the file is the list of rows.
`created_at` abstracts the `datetime.now().isoformat()` timestamp. -/
structure CsvRow where
  id : Nat
  prompt : String
  model : String
  settings_json : String
  video_path : String
  source : String
  created_at : Nat
deriving DecidableEq

/-- Embedding of `get_next_id` (csv_storage.py lines 26–35): one more than the
largest id on file, 1 for an empty file. -/
def get_next_id (rows : List CsvRow) : Nat :=
  (rows.map (fun r => r.id)).foldr max 0 + 1

/-- Embedding of `save_video_to_csv` (csv_storage.py lines 38–74): append one row
whose `settings_json` is the JSON dump of the settings snapshot.
Returns the new file contents and the saved row. -/
def save_video_to_csv (rows : List CsvRow) (prompt model video_path : String)
    (settings : SettingsDict) (source : String) (now : Nat) :
    List CsvRow × CsvRow :=
  let entry : CsvRow :=
    { id := get_next_id rows
      prompt := prompt
      model := model
      settings_json := jsonDumps settings
      video_path := video_path
      source := source
      created_at := now }
  (rows ++ [entry], entry)

/-- Embedding of `load_videos_from_csv` (csv_storage.py lines 77–105): read every
row, attach the parsed settings (`{}` when the JSON does not decode),
and return the most recent `limit` rows, newest first. -/
def load_videos_from_csv (rows : List CsvRow) (limit : Nat) :
    List (CsvRow × SettingsDict) :=
  ((rows.map (fun r => (r, (jsonLoads r.settings_json).getD []))).reverse).take
    limit

end AIVideo

/-- C9: for every record written by `save_video_to_csv` with a settings
dictionary (printable keys, printable string values), reading the store
back via `load_videos_from_csv` returns that record first, its
`settings_json` field deserialises to a mapping equal to the original
settings snapshot, and the parsed settings attached to the loaded row
equal the original snapshot. -/
theorem c9_csv_settings_roundtrip (rows : List AIVideo.CsvRow)
    (prompt model path source : String) (settings : AIVideo.SettingsDict)
    (now : Nat) (hp : AIVideo.printableSettings settings = true) :
    AIVideo.jsonLoads
      ((AIVideo.save_video_to_csv rows prompt model path settings source
        now).2.settings_json) = some settings ∧
    (AIVideo.load_videos_from_csv
      (AIVideo.save_video_to_csv rows prompt model path settings source
        now).1 50).head? =
      some ((AIVideo.save_video_to_csv rows prompt model path settings source
        now).2, settings) := by
  have hrt : AIVideo.jsonLoads (AIVideo.jsonDumps settings) = some settings :=
    AIVideo.jsonLoads_jsonDumps settings hp
  constructor
  · exact hrt
  · simp only [AIVideo.load_videos_from_csv, AIVideo.save_video_to_csv,
      List.map_append, List.reverse_append, List.map_cons, List.map_nil,
      List.reverse_cons, List.reverse_nil, List.nil_append, List.cons_append]
    rw [show (50 : Nat) = 49 + 1 from rfl, List.take_succ_cons]
    simp [hrt]

/-- C9 witness: a concrete settings snapshot round-trips through the
CSV store. -/
theorem c9_csv_settings_roundtrip_witness :
    AIVideo.printableSettings
      [("num_frames", .i 24), ("video_style", .s "Cinematic"),
       ("low_vram", .b true)] = true ∧
    AIVideo.jsonLoads
      ((AIVideo.save_video_to_csv [] "a cat" "modelscope" "out.mp4"
        [("num_frames", .i 24), ("video_style", .s "Cinematic"),
         ("low_vram", .b true)] "local" 5).2.settings_json) =
      some [("num_frames", .i 24), ("video_style", .s "Cinematic"),
        ("low_vram", .b true)] ∧
    (AIVideo.load_videos_from_csv
      (AIVideo.save_video_to_csv [] "a cat" "modelscope" "out.mp4"
        [("num_frames", .i 24), ("video_style", .s "Cinematic"),
         ("low_vram", .b true)] "local" 5).1 50).head? =
      some ((AIVideo.save_video_to_csv [] "a cat" "modelscope" "out.mp4"
        [("num_frames", .i 24), ("video_style", .s "Cinematic"),
         ("low_vram", .b true)] "local" 5).2,
        [("num_frames", .i 24), ("video_style", .s "Cinematic"),
         ("low_vram", .b true)]) := by
  have h := c9_csv_settings_roundtrip [] "a cat" "modelscope" "out.mp4" "local"
    [("num_frames", .i 24), ("video_style", .s "Cinematic"),
     ("low_vram", .b true)] 5 (by decide)
  exact ⟨by decide, h.1, h.2⟩
